import Mathlib

/-!
Verification development for the exam-preparation scheduler
(`scheduler/exam_prep/scheduler.py` and `data/students/student_data_writer.py`).

The Python code is shallowly embedded: dictionaries become insertion-ordered
association lists, Python `set` objects of URLs become lists queried only
through membership, and the stateful methods of `ExamScheduler` become pure
functions that take and return the mutated state explicitly.
-/

namespace ThinkeTT
/-! ### URL sets

`self._assigned_paper_urls` is a Python `set[str]`.  The scheduler only ever
uses membership (`in`), insertion (`add`), difference (`-=`), and subset
(`issubset`), so a list with membership-based semantics is a faithful model. -/

abbrev UrlSet := List String

def memS (s : List String) (u : String) : Bool :=
  s.any (fun v => v == u)

def addS (s : UrlSet) (u : String) : UrlSet :=
  if memS s u then s else u :: s

def addAllS (s : UrlSet) (us : List String) : UrlSet :=
  us.foldl addS s

def diffS (s : UrlSet) (us : List String) : UrlSet :=
  s.filter (fun u => !memS us u)

/-! ### Insertion-ordered grouping

`defaultdict(list)` indexed by a composite key, as used by both selector
methods: a new key is appended at the end (Python dicts preserve insertion
order), and a paper is appended at the end of its key's list. -/

def addToGroups {κ α : Type} [DecidableEq κ] :
    List (κ × List α) → κ → α → List (κ × List α)
  | [], k, a => [(k, [a])]
  | (k', as) :: rest, k, a =>
    if k' = k then (k', as ++ [a]) :: rest else (k', as) :: addToGroups rest k a

def groupFold {κ α : Type} [DecidableEq κ] (key : α → κ) (papers : List α) :
    List (κ × List α) :=
  papers.foldl (fun gs p => addToGroups gs (key p) p) []

/-! ### Stable sorting

Python's `sorted` is a stable sort by a key function.  We model it by a
left-to-right insertion sort: an element is inserted after every already
placed element that compares `le` to it, which preserves the relative order
of elements with equal keys exactly as a stable sort does. -/

def insertSorted {α : Type} (le : α → α → Bool) (x : α) : List α → List α
  | [] => [x]
  | y :: ys => if le y x then y :: insertSorted le x ys else x :: y :: ys

def stableSort {α : Type} (le : α → α → Bool) (xs : List α) : List α :=
  xs.foldl (fun acc x => insertSorted le x acc) []

/-! ### Filenames and the regular expressions of `lib/utils.py` and
`scheduler.py`

`PurePosixPath(url).name` is the part of the URL after the final slash.
`re.sub(r'_(qp|in)_', '_', filename)` replaces every non-overlapping
occurrence of `_qp_` or `_in_` with a single underscore, the scan resuming
just after each match.  `re.search(r'Paper\s*(\d+)', url, re.IGNORECASE)`
finds the first case-insensitive occurrence of the word `Paper`, optional
whitespace, and one or more digits, captured greedily. -/

def afterLastSlash (cs : List Char) : List Char :=
  cs.foldl (fun acc c => if c = '/' then [] else acc ++ [c]) []

def baseName (url : String) : String :=
  String.mk (afterLastSlash url.toList)

def stripQpIn : List Char → List Char
  | '_' :: 'q' :: 'p' :: '_' :: rest => '_' :: stripQpIn rest
  | '_' :: 'i' :: 'n' :: '_' :: rest => '_' :: stripQpIn rest
  | c :: rest => c :: stripQpIn rest
  | [] => []

def normalizedStem (url : String) : String :=
  String.mk (stripQpIn (baseName url).toList)

def charIsDigit (c : Char) : Bool :=
  '0' ≤ c && c ≤ '9'

def digitVal (c : Char) : Nat :=
  c.toNat - 48

/-- One attempted match of `_qp_(\d{2})\.pdf` at the head of the character
list; yields `int(group(1)[0])`, the first captured digit. -/
def matchQpAt : List Char → Option Nat
  | '_' :: 'q' :: 'p' :: '_' :: d1 :: d2 :: '.' :: 'p' :: 'd' :: 'f' :: _ =>
    if charIsDigit d1 && charIsDigit d2 then some (digitVal d1) else none
  | _ => none

def matchInAt : List Char → Option Nat
  | '_' :: 'i' :: 'n' :: '_' :: d1 :: d2 :: '.' :: 'p' :: 'd' :: 'f' :: _ =>
    if charIsDigit d1 && charIsDigit d2 then some (digitVal d1) else none
  | _ => none

def searchQp : List Char → Option Nat
  | [] => none
  | c :: rest =>
    match matchQpAt (c :: rest) with
    | some d => some d
    | none => searchQp rest

def searchInsert : List Char → Option Nat
  | [] => none
  | c :: rest =>
    match matchInAt (c :: rest) with
    | some d => some d
    | none => searchInsert rest

def lowerChar (c : Char) : Char :=
  if 'A' ≤ c ∧ c ≤ 'Z' then Char.ofNat (c.toNat + 32) else c

def charIsSpace (c : Char) : Bool :=
  c = ' ' || c = '\t' || c = '\n' || c = '\x0b' || c = '\x0c' || c = '\r'

def spanDigits : List Char → List Char × List Char
  | [] => ([], [])
  | c :: rest =>
    if charIsDigit c then
      let (ds, rs) := spanDigits rest
      (c :: ds, rs)
    else ([], c :: rest)

def skipSpaces : List Char → List Char
  | [] => []
  | c :: rest => if charIsSpace c then skipSpaces rest else c :: rest

def digitsToNat (ds : List Char) : Nat :=
  ds.foldl (fun a c => 10 * a + digitVal c) 0

/-- One attempted match of `Paper\s*(\d+)` (case-insensitive) at the head. -/
def matchPaperAt : List Char → Option Nat
  | p :: a :: q :: e :: r :: rest =>
    if lowerChar p = 'p' ∧ lowerChar a = 'a' ∧ lowerChar q = 'p' ∧
        lowerChar e = 'e' ∧ lowerChar r = 'r' then
      match spanDigits (skipSpaces rest) with
      | ([], _) => none
      | (ds, _) => some (digitsToNat ds)
    else none
  | _ => none

def searchPaperNum : List Char → Option Nat
  | [] => none
  | c :: rest =>
    match matchPaperAt (c :: rest) with
    | some n => some n
    | none => searchPaperNum rest

/-- `LibUtils.extract_paper_label` from `lib/utils.py`. -/
def extract_paper_label (url : String) : String :=
  let filename := (baseName url).toList
  match searchQp filename with
  | some d => "Paper " ++ Nat.repr d
  | none =>
    match searchInsert filename with
    | some d => "Paper " ++ Nat.repr d ++ " - Insert"
    | none =>
      match searchPaperNum url.toList with
      | some n => "Paper " ++ Nat.repr n
      | none => "Paper No: Undefined"

/-! ### Data model

`PastPaperMetadata` and `ScheduledPastPaperMetadata` from
`lib/typing/domain/schedule.py` (at run time `year` is the `int` parsed by
`PastPaperMetadataReader`, and `student_id` is the student's integer id). -/

structure PastPaperMetadata where
  grade : String
  subject : String
  year : Nat
  url : String
  session : String
  paper : String
deriving DecidableEq

structure ScheduledPastPaperMetadata where
  student_id : Nat
  date : String
  grade : String
  subject : String
  year : Nat
  session : String
  url : String
  paper : String
deriving DecidableEq

/-- The paper-catalog cache `self._subject_paper_cache`:
`subject → grade → list of papers`, a dict of dicts modelled as an
insertion-ordered association list. -/
abbrev Cache := List (String × List (String × List PastPaperMetadata))

/-- `cache.get(subject, {})`. -/
def cacheSubject (cache : Cache) (subject : String) :
    List (String × List PastPaperMetadata) :=
  ((cache.find? (fun sg => sg.1 == subject)).map Prod.snd).getD []

/-- `cache.get(subject, {}).get(grade, [])`. -/
def cacheGet (cache : Cache) (subject grade : String) :
    List PastPaperMetadata :=
  (((cacheSubject cache subject).find? (fun gp => gp.1 == grade)).map
    Prod.snd).getD []

/-- The paper rebuilt by both selector methods: the same metadata with the
`paper` field recomputed by `LibUtils.extract_paper_label`. -/
def rebuiltPaper (p : PastPaperMetadata) : PastPaperMetadata :=
  { grade := p.grade, subject := p.subject, year := p.year, url := p.url,
    session := p.session, paper := extract_paper_label p.url }

/-! ### Paper selection, cross-council
(`_get_next_cambridge_igcse_unassigned_paper`) -/

/-- The f-string group key
`f"{grade}::{subject}::{year}::{session}::{normalized}"` built by
`extract_group_key` (the key is never empty and the key computation cannot
raise, so every paper is grouped). -/
def cambridgeGroupKey (p : PastPaperMetadata) : String :=
  p.grade ++ "::" ++ p.subject ++ "::" ++ Nat.repr p.year ++ "::" ++
    p.session ++ "::" ++ normalizedStem p.url

def cambridgeGroups (papers : List PastPaperMetadata) :
    List (String × List PastPaperMetadata) :=
  groupFold cambridgeGroupKey (papers.map rebuiltPaper)

/-- The scan shared by both selectors: return the first group whose member
URLs are all outside the assigned set, adding all of that group's URLs; a
group that fails the check leaves the assigned set untouched. -/
def pickFirstUnassigned (groups : List (List PastPaperMetadata))
    (assigned : UrlSet) : List PastPaperMetadata × UrlSet :=
  match groups with
  | [] => ([], assigned)
  | g :: rest =>
    if g.all (fun p => !memS assigned p.url) then
      (g, addAllS assigned (g.map (fun p => p.url)))
    else pickFirstUnassigned rest assigned

/-- `_get_next_cambridge_igcse_unassigned_paper`, with the mutation of
`self._assigned_paper_urls` returned as the second component. -/
def getNextCambridgeIgcseUnassignedPaper (cache : Cache) (subject : String)
    (assigned : UrlSet) : List PastPaperMetadata × UrlSet :=
  pickFirstUnassigned
    ((cambridgeGroups (cacheGet cache subject "IGCSE")).map Prod.snd) assigned

/-! ### Paper selection, single-council
(`_get_next_eceswa_unassigned_paper` and `_get_next_eceswa_with_reset`) -/

/-- The ECESWA group key `(paper.year, paper.session, paper_number)`. -/
structure EceswaKey where
  year : Nat
  session : String
  num : Option Nat
deriving DecidableEq

def eceswaKey (p : PastPaperMetadata) : EceswaKey :=
  { year := p.year, session := p.session, num := searchPaperNum p.url.toList }

def eceswaGroups (papers : List PastPaperMetadata) :
    List (EceswaKey × List PastPaperMetadata) :=
  groupFold eceswaKey (papers.map rebuiltPaper)

/-- The sort key `(-year, paper_number or 0)` of
`sorted(grouped.items(), key=lambda x: (-x[0][0], x[0][2] or 0))`; Python's
sort is stable, which the index in the decorated pair reproduces. -/
def eceswaSortLe (a b : Nat × (EceswaKey × List PastPaperMetadata)) : Bool :=
  if a.2.1.year ≠ b.2.1.year then b.2.1.year < a.2.1.year
  else if a.2.1.num.getD 0 ≠ b.2.1.num.getD 0 then
    a.2.1.num.getD 0 < b.2.1.num.getD 0
  else a.1 ≤ b.1

def eceswaSortedGroups (papers : List PastPaperMetadata) :
    List (EceswaKey × List PastPaperMetadata) :=
  (stableSort eceswaSortLe (eceswaGroups papers).enum).map Prod.snd

/-- `_get_next_eceswa_unassigned_paper`. -/
def getNextEceswaUnassignedPaper (cache : Cache) (subject grade : String)
    (assigned : UrlSet) : List PastPaperMetadata × UrlSet :=
  pickFirstUnassigned
    ((eceswaSortedGroups (cacheGet cache subject grade)).map Prod.snd) assigned

/-- The URL set collected by `reset_eceswa_assigned_urls`: the URLs of every
cached paper, of any subject, whose grade key equals `grade`. -/
def gradeUrls (cache : Cache) (grade : String) : List String :=
  cache.flatMap (fun sg =>
    (sg.2.filter (fun gp => gp.1 == grade)).flatMap
      (fun gp => gp.2.map (fun p => p.url)))

/-- `all_papers` recomputed inside `_get_next_eceswa_with_reset`:
every cached paper of this subject whose grade key equals `grade`. -/
def subjectGradePapers (cache : Cache) (subject grade : String) :
    List PastPaperMetadata :=
  ((cacheSubject cache subject).filter (fun gp => gp.1 == grade)).flatMap
    Prod.snd

/-- `_get_next_eceswa_with_reset`.  The third component counts how many times
the reset branch fired (0 or 1), a pure instrumentation of the embedded
control flow. -/
def getNextEceswaWithReset (cache : Cache) (subject grade : String)
    (assigned : UrlSet) : List PastPaperMetadata × UrlSet × Nat :=
  let r1 := getNextEceswaUnassignedPaper cache subject grade assigned
  if r1.1.isEmpty then
    let allUrls := (subjectGradePapers cache subject grade).map
      (fun p => p.url)
    if allUrls.all (fun u => memS r1.2 u) then
      let afterReset := diffS r1.2 (gradeUrls cache grade)
      let r2 := getNextEceswaUnassignedPaper cache subject grade afterReset
      (r2.1, r2.2, 1)
    else (r1.1, r1.2, 0)
  else (r1.1, r1.2, 0)

/-! ### Properties of the first-unassigned-group scan -/

/-! ### Group keys are unique -/

/-! ### Persisted schedule rows and the schedule writer
(`data/students/student_data_writer.py`) -/

/-- The seven CSV fields written by `write_exam_schedule_record`; its
`fieldnames` list drops the dataclass's `paper` field. -/
structure CsvScheduleRow where
  student_id : Nat
  date : String
  grade : String
  subject : String
  year : Nat
  session : String
  url : String
deriving DecidableEq

def csvFields (r : ScheduledPastPaperMetadata) : CsvScheduleRow :=
  { student_id := r.student_id, date := r.date, grade := r.grade,
    subject := r.subject, year := r.year, session := r.session, url := r.url }

/-- `StudentDataWriter.write_exam_schedule_record`: opens the CSV in append
mode, writes the projected row, and returns `True`; the `False` branch is
reached only when an I/O exception is raised, which is outside this model.
The file contents are modelled as the list of rows already on disk. -/
def write_exam_schedule_record (rows : List CsvScheduleRow)
    (record : ScheduledPastPaperMetadata) : Bool × List CsvScheduleRow :=
  (true, rows ++ [csvFields record])

/-! ### The scheduler's view of persisted records
(`_get_scheduled_records`, `get_scheduled_records_by_day`) -/

/-- The `(year, month, day)` triple parsed by
`datetime.strptime(token, "%d-%m-%y")` from a fixed-width `dd-mm-yy` token
(`%y` maps 00–68 to 2000–2068 and 69–99 to 1969–1999). -/
def parsedDateKey (s : String) : Nat × Nat × Nat :=
  let cs := s.toList
  let d := 10 * digitVal (cs.getD 0 '0') + digitVal (cs.getD 1 '0')
  let m := 10 * digitVal (cs.getD 3 '0') + digitVal (cs.getD 4 '0')
  let yy := 10 * digitVal (cs.getD 6 '0') + digitVal (cs.getD 7 '0')
  (if yy ≤ 68 then 2000 + yy else 1900 + yy, m, d)

def tripleLe (x y : Nat × Nat × Nat) : Bool :=
  if x.1 ≠ y.1 then x.1 < y.1
  else if x.2.1 ≠ y.2.1 then x.2.1 < y.2.1
  else x.2.2 ≤ y.2.2

def recDateLe (a b : ScheduledPastPaperMetadata) : Bool :=
  tripleLe (parsedDateKey a.date) (parsedDateKey b.date)

/-- `_get_scheduled_records`: the persisted rows of the student whose `url`
field is truthy (non-empty), sorted stably by parsed date. -/
def scheduledRecords (records : List ScheduledPastPaperMetadata) :
    List ScheduledPastPaperMetadata :=
  stableSort recDateLe (records.filter (fun r => r.url ≠ ""))

/-- `get_scheduled_records_by_day`. -/
def get_scheduled_records_by_day (records : List ScheduledPastPaperMetadata)
    (day : String) : List ScheduledPastPaperMetadata :=
  (scheduledRecords records).filter (fun r => r.date == day)

/-! ### The proleptic Gregorian calendar of Python's `datetime`

`_generate_monthly_schedules` walks `datetime` values a day at a time.
`datetime` uses the proleptic Gregorian calendar; `toOrdinal` is CPython's
`date.toordinal` (`_days_before_year(y) + _days_before_month(y, m) + d`,
with ordinal 1 being 0001-01-01, a Monday), and `strftime('%A')` names the
weekday accordingly. -/

structure Date where
  year : Nat
  month : Nat
  day : Nat
deriving DecidableEq

def isLeap (y : Nat) : Bool :=
  y % 4 == 0 && (y % 100 != 0 || y % 400 == 0)

def monthDays31 : Nat → Nat
  | 1 => 31 | 2 => 28 | 3 => 31 | 4 => 30 | 5 => 31 | 6 => 30
  | 7 => 31 | 8 => 31 | 9 => 30 | 10 => 31 | 11 => 30 | 12 => 31
  | _ => 0

def daysInMonth (y m : Nat) : Nat :=
  if m = 2 ∧ isLeap y then 29 else monthDays31 m

def daysBeforeMonthTab : Nat → Nat
  | 1 => 0 | 2 => 31 | 3 => 59 | 4 => 90 | 5 => 120 | 6 => 151
  | 7 => 181 | 8 => 212 | 9 => 243 | 10 => 273 | 11 => 304 | 12 => 334
  | _ => 0

def daysBeforeMonth (y m : Nat) : Nat :=
  daysBeforeMonthTab m + (if 2 < m ∧ isLeap y then 1 else 0)

def daysBeforeYear (y : Nat) : Nat :=
  365 * (y - 1) + (y - 1) / 4 - (y - 1) / 100 + (y - 1) / 400

def toOrdinal (d : Date) : Nat :=
  daysBeforeYear d.year + daysBeforeMonth d.year d.month + d.day

def ValidDate (d : Date) : Prop :=
  1 ≤ d.year ∧ 1 ≤ d.month ∧ d.month ≤ 12 ∧ 1 ≤ d.day ∧
    d.day ≤ daysInMonth d.year d.month

instance (d : Date) : Decidable (ValidDate d) := by
  unfold ValidDate
  infer_instance

/-- `current += timedelta(days=1)`. -/
def nextDate (d : Date) : Date :=
  if d.day < daysInMonth d.year d.month then ⟨d.year, d.month, d.day + 1⟩
  else if d.month < 12 then ⟨d.year, d.month + 1, 1⟩
  else ⟨d.year + 1, 1, 1⟩

def weekdayNames : List String :=
  ["Monday", "Tuesday", "Wednesday", "Thursday", "Friday", "Saturday",
    "Sunday"]

/-- `current.strftime('%A')`. -/
def weekdayName (d : Date) : String :=
  weekdayNames.getD ((toOrdinal d + 6) % 7) ""

/-- `current.strftime('%B')`. -/
def monthName : Nat → String
  | 1 => "January" | 2 => "February" | 3 => "March" | 4 => "April"
  | 5 => "May" | 6 => "June" | 7 => "July" | 8 => "August"
  | 9 => "September" | 10 => "October" | 11 => "November" | 12 => "December"
  | _ => ""

def pad2 (n : Nat) : String :=
  String.mk [Char.ofNat (48 + n / 10 % 10), Char.ofNat (48 + n % 10)]

/-- `current.strftime('%d-%m-%y')`. -/
def formatDay (d : Date) : String :=
  pad2 d.day ++ "-" ++ pad2 d.month ++ "-" ++ pad2 (d.year % 100)

/-- The `while current <= end_date` walk, with enough fuel for the whole
closed interval; `datetime` comparison is chronological, i.e. comparison of
ordinals. -/
def dayListAux (last : Date) : Nat → Date → List Date
  | 0, _ => []
  | fuel + 1, cur =>
    if toOrdinal cur ≤ toOrdinal last then
      cur :: dayListAux last fuel (nextDate cur)
    else []

def dayList (s e : Date) : List Date :=
  dayListAux e (toOrdinal e + 1 - toOrdinal s) s

/-- The days surviving the `weekday_name not in excluded_days` test, in
visit order. -/
def validDays (s e : Date) (excluded : List String) : List Date :=
  (dayList s e).filter (fun d => !excluded.contains (weekdayName d))

/-- One value of the `monthly_schedules` dict before formatting: the month is
kept as its number here; the Python dict key `f"{year}-{month_name}"`
determines and is determined by `(year, month)` since `strftime('%B')` is
injective on the twelve months. -/
structure MonthAcc where
  year : Nat
  month : Nat
  days : List Date
deriving DecidableEq

/-- One emitted month block `{'year': ..., 'month': ..., 'days': [...]}`. -/
structure MonthBlock where
  year : Nat
  month : String
  days : List String
deriving DecidableEq

/-- Appending one day into the insertion-ordered dict of month blocks: the
first block with the day's `(year, month)` key receives it, otherwise a new
block is appended at the end (Python dicts preserve insertion order). -/
def insertDayAcc : List MonthAcc → Date → List MonthAcc
  | [], d => [⟨d.year, d.month, [d]⟩]
  | b :: bs, d =>
    if b.year = d.year ∧ b.month = d.month then
      ⟨b.year, b.month, b.days ++ [d]⟩ :: bs
    else b :: insertDayAcc bs d

def monthAccs (s e : Date) (excluded : List String) : List MonthAcc :=
  (validDays s e excluded).foldl insertDayAcc []

/-- `_generate_monthly_schedules`, with dates parsed from the input tokens at
the call boundary. -/
def generateMonthlySchedules (s e : Date) (excluded : List String) :
    List MonthBlock :=
  (monthAccs s e excluded).map
    (fun b => ⟨b.year, monthName b.month, b.days.map formatDay⟩)

/-! ### The scheduling loop (`get_new_scheduled_papers_for_student`) -/

inductive ExamCouncil where
  | ECESWA
  | CAMBRIDGE
deriving DecidableEq

structure Student where
  id : Nat
  name : String
  phone : String
  grade : String
  subjects : List String

/-- `ScheduleInputData`, with the `dd-mm-yy` date strings parsed into dates
and the council names resolved through `ExamCouncil.from_value` at the read
boundary. -/
structure ScheduleInputData where
  startDate : Date
  endDate : Date
  excludedDays : List String
  prioritizedCouncils : List (String × List ExamCouncil)

/-- `self._student_subjects_with_councils`: the input's prioritized councils
restricted to the student's subjects, in input order. -/
def subjectsWithCouncils (student : Student) (input : ScheduleInputData) :
    List (String × List ExamCouncil) :=
  input.prioritizedCouncils.filter (fun p => student.subjects.contains p.1)

/-- The `councils_map` dict comprehension (a later duplicate subject entry
overwrites an earlier one, hence the reversed lookup). -/
def councilsFor (swc : List (String × List ExamCouncil)) (subject : String) :
    List ExamCouncil :=
  ((swc.reverse.find? (fun p => p.1 == subject)).map Prod.snd).getD []

/-- The loop state: the assigned-URL set, the per-subject council indices,
and the instrumentation counter of ECESWA pool resets. -/
structure SchedState where
  assigned : UrlSet
  indices : String → Nat
  resets : Nat

def initialState (assigned0 : UrlSet) : SchedState :=
  { assigned := assigned0, indices := fun _ => 0, resets := 0 }

/-- The council dispatch inside `get_papers_for_subject`: Cambridge goes to
the IGCSE selector; any other council goes to the ECESWA selector for the
grade tier of the student. -/
def selectForCouncil (studentGrade : String) (cache : Cache)
    (subject : String) (council : ExamCouncil) (assigned : UrlSet) :
    List PastPaperMetadata × UrlSet × Nat :=
  match council with
  | .CAMBRIDGE =>
    let r := getNextCambridgeIgcseUnassignedPaper cache subject assigned
    (r.1, r.2, 0)
  | .ECESWA =>
    if studentGrade = "EGCSE" then
      getNextEceswaWithReset cache subject "EGCSE" assigned
    else getNextEceswaWithReset cache subject "JC" assigned

/-- The `for i in range(len(councils))` scan of `get_papers_for_subject`:
consult `councils[(start + i) % len]`, moving to the next council only when
the current one yields nothing; returns the papers, the final assigned set,
the accumulated reset count, and the successful offset (if any). -/
def tryCouncilsAux (studentGrade : String) (cache : Cache) (subject : String)
    (councils : List ExamCouncil) (start : Nat) :
    Nat → Nat → UrlSet → Nat →
      List PastPaperMetadata × UrlSet × Nat × Option Nat
  | _, 0, assigned, resets => ([], assigned, resets, none)
  | i, remaining + 1, assigned, resets =>
    let c := councils.getD ((start + i) % councils.length) ExamCouncil.ECESWA
    let r := selectForCouncil studentGrade cache subject c assigned
    if r.1.isEmpty then
      tryCouncilsAux studentGrade cache subject councils start (i + 1)
        remaining r.2.1 (resets + r.2.2)
    else (r.1, r.2.1, resets + r.2.2, some i)

/-- `get_papers_for_subject`, with the `council_indices` update returned in
the state. -/
def getPapersForSubject (studentGrade : String) (cache : Cache)
    (subject : String) (councils : List ExamCouncil) (st : SchedState) :
    List PastPaperMetadata × SchedState :=
  let n := councils.length
  let start := st.indices subject % n
  let r := tryCouncilsAux studentGrade cache subject councils start 0 n
    st.assigned st.resets
  match r.2.2.2 with
  | some i =>
    (r.1, { assigned := r.2.1,
            indices := fun s =>
              if s = subject then (start + i + 1) % n else st.indices s,
            resets := r.2.2.1 })
  | none =>
    ([], { assigned := r.2.1,
           indices := fun s =>
             if s = subject then (st.indices subject + 1) % n
             else st.indices s,
           resets := r.2.2.1 })

/-- The placeholder appended when no papers were found for the day. -/
def placeholderRow (studentId : Nat) (day subject : String) :
    ScheduledPastPaperMetadata :=
  { student_id := studentId, date := day, grade := "", subject := subject,
    year := 0, session := "", url := "", paper := "" }

def paperRow (studentId : Nat) (day : String) (p : PastPaperMetadata) :
    ScheduledPastPaperMetadata :=
  { student_id := studentId, date := day, grade := p.grade,
    subject := p.subject, year := p.year, session := p.session,
    url := p.url, paper := p.paper }

/-- The rows appended for one day: the selected group's rows, or one
placeholder when the selection came back empty. -/
def rowsFor (studentId : Nat) (day subject : String)
    (papers : List PastPaperMetadata) : List ScheduledPastPaperMetadata :=
  if papers.isEmpty then [placeholderRow studentId day subject]
  else papers.map (paperRow studentId day)

/-- The `for day in all_days` loop: one subject per day in round-robin order,
the subject index advancing by one per day regardless of success. -/
def scheduleDays (studentGrade : String) (cache : Cache) (studentId : Nat)
    (subjectsOrder : List String)
    (councilsMap : String → List ExamCouncil) :
    List String → Nat → SchedState →
      List ScheduledPastPaperMetadata × SchedState
  | [], _, st => ([], st)
  | day :: rest, idx, st =>
    let subject := subjectsOrder.getD (idx % subjectsOrder.length) ""
    let r := getPapersForSubject studentGrade cache subject
      (councilsMap subject) st
    let r2 := scheduleDays studentGrade cache studentId subjectsOrder
      councilsMap rest (idx + 1) r.2
    (rowsFor studentId day subject r.1 ++ r2.1, r2.2)

/-- The per-day blocks of the same loop, used to state what each day
contributes. -/
def dayBlocks (studentGrade : String) (cache : Cache) (studentId : Nat)
    (subjectsOrder : List String)
    (councilsMap : String → List ExamCouncil) :
    List String → Nat → SchedState → List (List ScheduledPastPaperMetadata)
  | [], _, _ => []
  | day :: rest, idx, st =>
    let subject := subjectsOrder.getD (idx % subjectsOrder.length) ""
    let r := getPapersForSubject studentGrade cache subject
      (councilsMap subject) st
    rowsFor studentId day subject r.1 ::
      dayBlocks studentGrade cache studentId subjectsOrder councilsMap rest
        (idx + 1) r.2

def strTokenLe (a b : String) : Bool :=
  tripleLe (parsedDateKey a) (parsedDateKey b)

/-- `_get_all_days()` flattened into a set of tokens, then
`sorted(..., key=lambda d: datetime.strptime(d, "%d-%m-%y"))`. -/
def allDaysSorted (input : ScheduleInputData) : List String :=
  stableSort strTokenLe
    (((generateMonthlySchedules input.startDate input.endDate
      input.excludedDays).flatMap (fun b => b.days)).dedup)

/-- `get_new_scheduled_papers_for_student`, returning the rows and the final
loop state. -/
def get_new_scheduled_papers_for_student (student : Student)
    (input : ScheduleInputData) (cache : Cache) (assigned0 : UrlSet) :
    List ScheduledPastPaperMetadata × SchedState :=
  let swc := subjectsWithCouncils student input
  scheduleDays student.grade cache student.id (swc.map Prod.fst)
    (fun s => councilsFor swc s) (allDaysSorted input) 0
    (initialState assigned0)

/-- `has_complete_schedule`: the persisted assigned days (of url-bearing
rows) must be non-empty and a subset of the expected valid-day tokens. -/
def has_complete_schedule (s e : Date) (excluded : List String)
    (records : List ScheduledPastPaperMetadata) : Bool :=
  if ((scheduledRecords records).map (fun r => r.date)).isEmpty then false
  else ((scheduledRecords records).map (fun r => r.date)).all
    (fun day => (((generateMonthlySchedules s e excluded).flatMap
      (fun b => b.days)).dedup).contains day)

/-- Modelled from the claim's words for the C9 refutation: a selection
attempt that always consults the councils from the first (primary) one,
moving on only when the preceding council yields nothing. -/
def primaryFirstPapers (studentGrade : String) (cache : Cache)
    (subject : String) (councils : List ExamCouncil) (assigned : UrlSet) :
    List PastPaperMetadata :=
  (tryCouncilsAux studentGrade cache subject councils 0 0 councils.length
    assigned 0).1

/-- The assigned set after the first `j` consultations of one attempt, the
councils consulted cyclically from `start`. -/
def consultState (studentGrade : String) (cache : Cache) (subject : String)
    (councils : List ExamCouncil) (start : Nat) (assigned : UrlSet) :
    Nat → UrlSet
  | 0 => assigned
  | j + 1 =>
    (selectForCouncil studentGrade cache subject
      (councils.getD ((start + j) % councils.length) ExamCouncil.ECESWA)
      (consultState studentGrade cache subject councils start assigned j)).2.1

/-- The papers yielded by the `j`-th consultation (0-based) of one attempt. -/
def consultPapers (studentGrade : String) (cache : Cache) (subject : String)
    (councils : List ExamCouncil) (start : Nat) (assigned : UrlSet)
    (j : Nat) : List PastPaperMetadata :=
  (selectForCouncil studentGrade cache subject
    (councils.getD ((start + j) % councils.length) ExamCouncil.ECESWA)
    (consultState studentGrade cache subject councils start assigned j)).1

/-- The resets accumulated by the first `j` consultations. -/
def consultResets (studentGrade : String) (cache : Cache) (subject : String)
    (councils : List ExamCouncil) (start : Nat) (assigned : UrlSet) :
    Nat → Nat
  | 0 => 0
  | j + 1 =>
    consultResets studentGrade cache subject councils start assigned j +
      (selectForCouncil studentGrade cache subject
        (councils.getD ((start + j) % councils.length) ExamCouncil.ECESWA)
        (consultState studentGrade cache subject councils start assigned
          j)).2.2

/-- Every URL of the whole catalog cache, in cache order. -/
def allCacheUrls (cache : Cache) : List String :=
  cache.flatMap (fun sg =>
    sg.2.flatMap (fun gp => gp.2.map (fun p => p.url)))

/-- How one selector call relates the assigned-URL set before and after it:
an empty pick leaves the set unchanged; a non-empty pick is made of URLs
that were all unassigned, pairwise distinct, and exactly the ones added. -/
def SelStep (assigned a' : UrlSet) (papers : List PastPaperMetadata) : Prop :=
  (papers = [] → a' = assigned) ∧
  (papers ≠ [] →
    (∀ p ∈ papers, memS assigned p.url = false) ∧
    ((papers.map (fun p => p.url)).Nodup) ∧
    a' = addAllS assigned (papers.map (fun p => p.url)))

def ymKey (d : Date) : Nat × Nat := (d.year, d.month)

def ymLeP (a b : Nat × Nat) : Prop := a.1 < b.1 ∨ (a.1 = b.1 ∧ a.2 ≤ b.2)

def ymLtP (a b : Nat × Nat) : Prop := a.1 < b.1 ∨ (a.1 = b.1 ∧ a.2 < b.2)

/-! ### Concrete witness data -/

def paperC1qp : PastPaperMetadata :=
  { grade := "IGCSE", subject := "Biology", year := 2019,
    url := "https://papers.com/igcse/biology/0610_s19_qp_21.pdf",
    session := "May-June", paper := "" }

def paperC1in : PastPaperMetadata :=
  { grade := "IGCSE", subject := "Biology", year := 2019,
    url := "https://papers.com/igcse/biology/0610_s19_in_21.pdf",
    session := "May-June", paper := "" }

def cacheC1 : Cache := [("Biology", [("IGCSE", [paperC1qp, paperC1in])])]

def paperC2a : PastPaperMetadata :=
  { grade := "JC", subject := "Mathematics", year := 2021,
    url := "https://papers.com/eceswa/jc/Mathematics Paper 1 2021.pdf",
    session := "Oct-Nov", paper := "" }

def paperC2b : PastPaperMetadata :=
  { grade := "JC", subject := "Mathematics", year := 2021,
    url := "https://papers.com/eceswa/jc/Mathematics Paper 2 2021.pdf",
    session := "Oct-Nov", paper := "" }

def paperC2c : PastPaperMetadata :=
  { grade := "JC", subject := "Mathematics", year := 2022,
    url := "https://papers.com/eceswa/jc/Mathematics Paper 1 2022.pdf",
    session := "Oct-Nov", paper := "" }

def paperC2d : PastPaperMetadata :=
  { grade := "JC", subject := "Mathematics", year := 2022,
    url := "https://papers.com/eceswa/jc/Mathematics Paper 2 2022.pdf",
    session := "Oct-Nov", paper := "" }

def cacheC2 : Cache :=
  [("Mathematics", [("JC", [paperC2a, paperC2b, paperC2c, paperC2d])])]

/-- A fully exhausted assigned-URL state for the catalog `cacheC2`. -/
def assignedC3 : UrlSet :=
  [paperC2a.url, paperC2b.url, paperC2c.url, paperC2d.url]

def rowC8 : ScheduledPastPaperMetadata :=
  { student_id := 1, date := "03-03-25", grade := "JC",
    subject := "Mathematics", year := 2022, session := "Oct-Nov",
    url := "https://papers.com/eceswa/jc/Mathematics Paper 1 2022.pdf",
    paper := "Paper 1" }

def studentC7 : Student :=
  { id := 1, name := "A", phone := "", grade := "JC",
    subjects := ["Mathematics"] }

def inputC7 : ScheduleInputData :=
  { startDate := ⟨2025, 3, 3⟩, endDate := ⟨2025, 3, 4⟩, excludedDays := [],
    prioritizedCouncils := [("Mathematics", [ExamCouncil.ECESWA])] }

def cacheC7 : Cache := [("Mathematics", [("JC", [paperC2c])])]

def sciIg1 : PastPaperMetadata :=
  { grade := "IGCSE", subject := "Science", year := 2019,
    url := "https://p.com/0654_s19_qp_21.pdf", session := "May", paper := "" }

def sciIg2 : PastPaperMetadata :=
  { grade := "IGCSE", subject := "Science", year := 2020,
    url := "https://p.com/0654_s20_qp_21.pdf", session := "May", paper := "" }

def sciJc1 : PastPaperMetadata :=
  { grade := "JC", subject := "Science", year := 2022,
    url := "https://p.com/Science Paper 1 2022.pdf", session := "Oct",
    paper := "" }

def cacheC9 : Cache :=
  [("Science", [("IGCSE", [sciIg1, sciIg2]), ("JC", [sciJc1])])]

/-- The loop state reached after one successful Cambridge pick for
`Science`. -/
def stateC9 : SchedState :=
  (getPapersForSubject "JC" cacheC9 "Science"
    [ExamCouncil.CAMBRIDGE, ExamCouncil.ECESWA] (initialState [])).2

/-! ## Theorems -/

theorem memS_iff (s : List String) (u : String) : memS s u = true ↔ u ∈ s := by
  simp only [memS, List.any_eq_true, beq_iff_eq]
  constructor
  · rintro ⟨x, hx, rfl⟩; exact hx
  · intro h; exact ⟨u, h, rfl⟩

theorem mem_addS (s : UrlSet) (u v : String) :
    v ∈ addS s u ↔ (v = u ∨ v ∈ s) := by
  unfold addS
  split
  case isTrue h =>
    constructor
    · exact Or.inr
    · rintro (rfl | hv)
      · exact (memS_iff s v).mp h
      · exact hv
  case isFalse h => simp [List.mem_cons]

theorem memS_addS (s : UrlSet) (u v : String) :
    memS (addS s u) v = true ↔ (v = u ∨ memS s v = true) := by
  rw [memS_iff, mem_addS, memS_iff]

theorem memS_addAllS (s : UrlSet) (us : List String) (v : String) :
    memS (addAllS s us) v = true ↔ (memS s v = true ∨ v ∈ us) := by
  induction us generalizing s with
  | nil => simp [addAllS]
  | cons u rest ih =>
    simp only [addAllS, List.foldl_cons] at *
    rw [ih (addS s u), memS_addS]
    simp only [List.mem_cons]
    tauto

theorem memS_diffS (s : UrlSet) (us : List String) (v : String) :
    memS (diffS s us) v = true ↔ (memS s v = true ∧ ¬ v ∈ us) := by
  rw [memS_iff, memS_iff]
  simp only [diffS, List.mem_filter, Bool.not_eq_true', ← Bool.not_eq_true]
  simp [memS_iff]

theorem addToGroups_flatten_perm {κ α : Type} [DecidableEq κ]
    (gs : List (κ × List α)) (k : κ) (a : α) :
    (((addToGroups gs k a).map Prod.snd).flatten).Perm
      (a :: (gs.map Prod.snd).flatten) := by
  induction gs with
  | nil => simp [addToGroups]
  | cons g rest ih =>
    obtain ⟨k', as⟩ := g
    by_cases h : k' = k
    · simp only [addToGroups, if_pos h, List.map_cons, List.flatten_cons]
      rw [List.append_assoc]
      simpa using (List.perm_middle)
    · simp only [addToGroups, if_neg h, List.map_cons, List.flatten_cons]
      refine ((ih.append_left as)).trans ?_
      exact (List.perm_middle)

/-- The groups produced by `groupFold` partition the input list: flattening
the group values gives back a permutation of the input. -/
theorem groupFold_flatten_perm {κ α : Type} [DecidableEq κ] (key : α → κ)
    (papers : List α) :
    (((groupFold key papers).map Prod.snd).flatten).Perm papers := by
  suffices h : ∀ (gs : List (κ × List α)),
      (((papers.foldl (fun gs p => addToGroups gs (key p) p) gs).map
        Prod.snd).flatten).Perm (papers ++ (gs.map Prod.snd).flatten) by
    simpa [groupFold] using h []
  induction papers with
  | nil => intro gs; simp
  | cons p rest ih =>
    intro gs
    simp only [List.foldl_cons]
    refine (ih (addToGroups gs (key p) p)).trans ?_
    have h1 := addToGroups_flatten_perm gs (key p) p
    refine (h1.append_left rest).trans ?_
    simpa using (List.perm_middle)

theorem addToGroups_key_eq {κ α : Type} [DecidableEq κ]
    (key : α → κ) (gs : List (κ × List α)) (k : κ) (a : α)
    (hk : key a = k)
    (h : ∀ g ∈ gs, ∀ x ∈ g.2, key x = g.1) :
    ∀ g ∈ addToGroups gs k a, ∀ x ∈ g.2, key x = g.1 := by
  induction gs with
  | nil =>
    intro g hg x hx
    simp only [addToGroups, List.mem_singleton] at hg
    subst hg
    simp only [List.mem_singleton] at hx
    subst hx
    exact hk
  | cons g0 rest ih =>
    obtain ⟨k', as⟩ := g0
    intro g hg x hx
    by_cases hkk : k' = k
    · simp only [addToGroups, if_pos hkk, List.mem_cons] at hg
      rcases hg with hg | hg
      · subst hg
        simp only [List.mem_append, List.mem_singleton] at hx
        rcases hx with hx | hx
        · exact h (k', as) (by simp) x hx
        · subst hx; rw [hk, hkk]
      · exact h g (by simp [hg]) x hx
    · simp only [addToGroups, if_neg hkk, List.mem_cons] at hg
      rcases hg with hg | hg
      · subst hg
        exact h (k', as) (by simp) x hx
      · exact ih (fun g hg => h g (by simp [hg])) g hg x hx

/-- Every group of `groupFold` carries exactly the papers whose key is the
group's key. -/
theorem groupFold_key_eq {κ α : Type} [DecidableEq κ] (key : α → κ)
    (papers : List α) :
    ∀ g ∈ groupFold key papers, ∀ x ∈ g.2, key x = g.1 := by
  suffices h : ∀ gs, (∀ g ∈ gs, ∀ x ∈ g.2, key x = g.1) →
      ∀ g ∈ papers.foldl (fun gs p => addToGroups gs (key p) p) gs,
        ∀ x ∈ g.2, key x = g.1 by
    exact h [] (by simp)
  induction papers with
  | nil => intro gs h; simpa using h
  | cons p rest ih =>
    intro gs h
    simp only [List.foldl_cons]
    exact ih _ (addToGroups_key_eq key gs (key p) p rfl h)

theorem addToGroups_nonempty {κ α : Type} [DecidableEq κ]
    (gs : List (κ × List α)) (k : κ) (a : α)
    (h : ∀ g ∈ gs, g.2 ≠ []) :
    ∀ g ∈ addToGroups gs k a, g.2 ≠ [] := by
  induction gs with
  | nil =>
    intro g hg
    simp only [addToGroups, List.mem_singleton] at hg
    subst hg
    simp
  | cons g0 rest ih =>
    obtain ⟨k', as⟩ := g0
    intro g hg
    by_cases hkk : k' = k
    · simp only [addToGroups, if_pos hkk, List.mem_cons] at hg
      rcases hg with hg | hg
      · subst hg; simp
      · exact h g (by simp [hg])
    · simp only [addToGroups, if_neg hkk, List.mem_cons] at hg
      rcases hg with hg | hg
      · subst hg; exact h (k', as) (by simp)
      · exact ih (fun g hg => h g (by simp [hg])) g hg

/-- No group of `groupFold` is empty. -/
theorem groupFold_nonempty {κ α : Type} [DecidableEq κ] (key : α → κ)
    (papers : List α) : ∀ g ∈ groupFold key papers, g.2 ≠ [] := by
  suffices h : ∀ gs, (∀ g ∈ gs, g.2 ≠ []) →
      ∀ g ∈ papers.foldl (fun gs p => addToGroups gs (key p) p) gs, g.2 ≠ [] by
    exact h [] (by simp)
  induction papers with
  | nil => intro gs h; simpa using h
  | cons p rest ih =>
    intro gs h
    simp only [List.foldl_cons]
    exact ih _ (addToGroups_nonempty gs (key p) p h)

theorem groupFold_ne_nil {κ α : Type} [DecidableEq κ] (key : α → κ)
    (papers : List α) (h : papers ≠ []) : groupFold key papers ≠ [] := by
  intro hempty
  have hperm := groupFold_flatten_perm key papers
  rw [hempty] at hperm
  simp only [List.map_nil, List.flatten_nil] at hperm
  exact h (hperm.nil_eq).symm

theorem insertSorted_perm {α : Type} (le : α → α → Bool) (x : α)
    (ys : List α) : (insertSorted le x ys).Perm (x :: ys) := by
  induction ys with
  | nil => simp [insertSorted]
  | cons y ys ih =>
    simp only [insertSorted]
    split
    · exact (ih.cons y).trans (List.Perm.swap x y ys)
    · exact List.Perm.refl _

theorem stableSort_perm {α : Type} (le : α → α → Bool) (xs : List α) :
    (stableSort le xs).Perm xs := by
  suffices h : ∀ acc : List α,
      (xs.foldl (fun acc x => insertSorted le x acc) acc).Perm (acc ++ xs) by
    simpa [stableSort] using h []
  induction xs with
  | nil => intro acc; simp
  | cons x rest ih =>
    intro acc
    simp only [List.foldl_cons]
    refine (ih (insertSorted le x acc)).trans ?_
    refine ((insertSorted_perm le x acc).append_right rest).trans ?_
    simpa using (List.perm_middle).symm

theorem insertSorted_sorted {α : Type} (le : α → α → Bool)
    (htotal : ∀ a b, le a b = true ∨ le b a = true)
    (htrans : ∀ a b c, le a b = true → le b c = true → le a c = true)
    (x : α) (ys : List α)
    (h : ys.Pairwise (fun a b => le a b = true)) :
    (insertSorted le x ys).Pairwise (fun a b => le a b = true) := by
  induction ys with
  | nil => simp [insertSorted]
  | cons y ys ih =>
    simp only [insertSorted]
    rw [List.pairwise_cons] at h
    split
    case isTrue hyx =>
      rw [List.pairwise_cons]
      refine ⟨?_, ih h.2⟩
      intro z hz
      have hz' := (insertSorted_perm le x ys).mem_iff.mp hz
      rw [List.mem_cons] at hz'
      rcases hz' with rfl | hz'
      · exact hyx
      · exact h.1 z hz'
    case isFalse hyx =>
      have hxy : le x y = true := by
        rcases htotal x y with hh | hh
        · exact hh
        · exact absurd hh hyx
      rw [List.pairwise_cons]
      constructor
      · intro z hz
        rw [List.mem_cons] at hz
        rcases hz with rfl | hz
        · exact hxy
        · exact htrans x y z hxy (h.1 z hz)
      · exact List.pairwise_cons.mpr h

theorem stableSort_sorted {α : Type} (le : α → α → Bool)
    (htotal : ∀ a b, le a b = true ∨ le b a = true)
    (htrans : ∀ a b c, le a b = true → le b c = true → le a c = true)
    (xs : List α) :
    (stableSort le xs).Pairwise (fun a b => le a b = true) := by
  suffices h : ∀ acc : List α, acc.Pairwise (fun a b => le a b = true) →
      (xs.foldl (fun acc x => insertSorted le x acc) acc).Pairwise
        (fun a b => le a b = true) by
    exact h [] (by simp)
  induction xs with
  | nil => intro acc hacc; simpa using hacc
  | cons x rest ih =>
    intro acc hacc
    simp only [List.foldl_cons]
    exact ih _ (insertSorted_sorted le htotal htrans x acc hacc)

theorem pickFirstUnassigned_spec (groups : List (List PastPaperMetadata))
    (assigned : UrlSet) :
    (pickFirstUnassigned groups assigned = ([], assigned) ∧
      ∀ g ∈ groups, ∃ p ∈ g, memS assigned p.url = true) ∨
    (∃ pre g post, groups = pre ++ g :: post ∧
      (∀ h ∈ pre, ∃ p ∈ h, memS assigned p.url = true) ∧
      (∀ p ∈ g, memS assigned p.url = false) ∧
      pickFirstUnassigned groups assigned =
        (g, addAllS assigned (g.map (fun p => p.url)))) := by
  induction groups with
  | nil => exact Or.inl ⟨rfl, by simp⟩
  | cons g rest ih =>
    by_cases h : g.all (fun p => !memS assigned p.url) = true
    · refine Or.inr ⟨[], g, rest, by simp, by simp, ?_, ?_⟩
      · intro p hp
        have := (List.all_eq_true.mp h) p hp
        simpa using this
      · simp only [pickFirstUnassigned, if_pos h]
    · have hex : ∃ p ∈ g, memS assigned p.url = true := by
        by_contra hno
        push_neg at hno
        apply h
        rw [List.all_eq_true]
        intro p hp
        simpa using hno p hp
      rcases ih with ⟨heq, hall⟩ | ⟨pre, g0, post, hsplit, hpre, hg0, heq⟩
      · refine Or.inl ⟨?_, ?_⟩
        · simp only [pickFirstUnassigned, if_neg h]
          exact heq
        · intro g' hg'
          rw [List.mem_cons] at hg'
          rcases hg' with rfl | hg'
          · exact hex
          · exact hall g' hg'
      · refine Or.inr ⟨g :: pre, g0, post, by simp [hsplit], ?_, hg0, ?_⟩
        · intro h' hh'
          rw [List.mem_cons] at hh'
          rcases hh' with rfl | hh'
          · exact hex
          · exact hpre h' hh'
        · simp only [pickFirstUnassigned, if_neg h]
          exact heq

theorem pickFirstUnassigned_of_all_free (groups : List (List PastPaperMetadata))
    (assigned : UrlSet) (g0 : List PastPaperMetadata) (rest : List (List PastPaperMetadata))
    (hgroups : groups = g0 :: rest)
    (hfree : ∀ p ∈ g0, memS assigned p.url = false) :
    pickFirstUnassigned groups assigned =
      (g0, addAllS assigned (g0.map (fun p => p.url))) := by
  subst hgroups
  have h : g0.all (fun p => !memS assigned p.url) = true := by
    rw [List.all_eq_true]
    intro p hp
    simp [hfree p hp]
  simp only [pickFirstUnassigned, if_pos h]

theorem addToGroups_keys {κ α : Type} [DecidableEq κ]
    (gs : List (κ × List α)) (k : κ) (a : α) :
    (addToGroups gs k a).map Prod.fst =
      if k ∈ gs.map Prod.fst then gs.map Prod.fst
      else gs.map Prod.fst ++ [k] := by
  induction gs with
  | nil => simp [addToGroups]
  | cons g rest ih =>
    obtain ⟨k', as⟩ := g
    by_cases h : k' = k
    · subst h
      simp [addToGroups]
    · simp only [addToGroups, if_neg h, List.map_cons, ih]
      by_cases hk : k ∈ rest.map Prod.fst
      · rw [if_pos hk, if_pos (by simp [hk])]
      · rw [if_neg hk, if_neg (by simp [hk, Ne.symm h])]
        simp

theorem groupFold_keys_nodup {κ α : Type} [DecidableEq κ] (key : α → κ)
    (papers : List α) : ((groupFold key papers).map Prod.fst).Nodup := by
  suffices h : ∀ gs : List (κ × List α), (gs.map Prod.fst).Nodup →
      ((papers.foldl (fun gs p => addToGroups gs (key p) p) gs).map
        Prod.fst).Nodup by
    exact h [] (by simp)
  induction papers with
  | nil => intro gs h; simpa using h
  | cons p rest ih =>
    intro gs h
    simp only [List.foldl_cons]
    apply ih
    rw [addToGroups_keys]
    split
    · exact h
    case isFalse hk => exact List.Nodup.append h (by simp) (by simpa using hk)

/-- The composite group key ignores the `paper` field, so computing it on the
rebuilt paper equals computing it on the catalog paper, as the Python code
does. -/
theorem cambridgeGroupKey_rebuilt (p : PastPaperMetadata) :
    cambridgeGroupKey (rebuiltPaper p) = cambridgeGroupKey p := rfl

theorem eceswaKey_rebuilt (p : PastPaperMetadata) :
    eceswaKey (rebuiltPaper p) = eceswaKey p := rfl

/-- C1: for every subject, the Cambridge IGCSE selector groups the cached
papers by the composite key (grade, subject, year, session, filename with the
qp/in marker stripped); it returns the first group in catalog order none of
whose member URLs is assigned, and exactly when it returns a group it adds
every member URL of that group to the assigned-URL set (all-or-nothing: the
empty result leaves the set unchanged). -/
theorem C1_cambridge_group_selection (cache : Cache) (subject : String)
    (assigned : UrlSet) (groups : List (List PastPaperMetadata))
    (hg : groups = (cambridgeGroups (cacheGet cache subject "IGCSE")).map
      Prod.snd) :
    (∀ g ∈ cambridgeGroups (cacheGet cache subject "IGCSE"), ∀ p ∈ g.2,
        cambridgeGroupKey p = g.1) ∧
    ((cambridgeGroups (cacheGet cache subject "IGCSE")).map Prod.fst).Nodup ∧
    (groups.flatten).Perm ((cacheGet cache subject "IGCSE").map rebuiltPaper) ∧
    ((getNextCambridgeIgcseUnassignedPaper cache subject assigned =
          ([], assigned) ∧
        ∀ g ∈ groups, ∃ p ∈ g, memS assigned p.url = true) ∨
      (∃ pre g post, groups = pre ++ g :: post ∧
        (∀ h ∈ pre, ∃ p ∈ h, memS assigned p.url = true) ∧
        (∀ p ∈ g, memS assigned p.url = false) ∧
        getNextCambridgeIgcseUnassignedPaper cache subject assigned =
          (g, addAllS assigned (g.map (fun p => p.url))))) := by
  subst hg
  refine ⟨groupFold_key_eq _ _, groupFold_keys_nodup _ _,
    groupFold_flatten_perm _ _, ?_⟩
  have h := pickFirstUnassigned_spec
    ((cambridgeGroups (cacheGet cache subject "IGCSE")).map Prod.snd) assigned
  simpa [getNextCambridgeIgcseUnassignedPaper] using h

/-- Witness for C1: the selection clause instantiated on a concrete
two-member catalog (a question paper and its insert). -/
theorem C1_cambridge_group_selection_witness :
    ((getNextCambridgeIgcseUnassignedPaper cacheC1 "Biology" [] = ([], []) ∧
        ∀ g ∈ (cambridgeGroups (cacheGet cacheC1 "Biology" "IGCSE")).map
          Prod.snd, ∃ p ∈ g, memS [] p.url = true) ∨
      (∃ pre g post,
        (cambridgeGroups (cacheGet cacheC1 "Biology" "IGCSE")).map Prod.snd =
          pre ++ g :: post ∧
        (∀ h ∈ pre, ∃ p ∈ h, memS [] p.url = true) ∧
        (∀ p ∈ g, memS [] p.url = false) ∧
        getNextCambridgeIgcseUnassignedPaper cacheC1 "Biology" [] =
          (g, addAllS [] (g.map (fun p => p.url))))) :=
  (C1_cambridge_group_selection cacheC1 "Biology" [] _ rfl).2.2.2

theorem eceswaSortLe_total (a b : Nat × (EceswaKey × List PastPaperMetadata)) :
    eceswaSortLe a b = true ∨ eceswaSortLe b a = true := by
  simp only [eceswaSortLe]
  split_ifs <;> simp only [decide_eq_true_eq] <;> omega

theorem eceswaSortLe_trans (a b c : Nat × (EceswaKey × List PastPaperMetadata))
    (hab : eceswaSortLe a b = true) (hbc : eceswaSortLe b c = true) :
    eceswaSortLe a c = true := by
  simp only [eceswaSortLe] at hab hbc ⊢
  split_ifs at hab hbc ⊢ <;>
    simp only [decide_eq_true_eq] at hab hbc ⊢ <;> omega

theorem eceswaSortedGroups_perm (papers : List PastPaperMetadata) :
    (eceswaSortedGroups papers).Perm (eceswaGroups papers) := by
  have h := (stableSort_perm eceswaSortLe (eceswaGroups papers).enum).map
    Prod.snd
  simpa [eceswaSortedGroups, List.enum_map_snd] using h

/-- C2: for every subject and grade, the ECESWA selector groups the cached
papers by (year, session, paper number extracted from the token
"Paper <N>" in the URL, an absent number counting as 0 for sorting only),
sorts the groups by year descending then paper number ascending, and returns
the first group in that order all of whose URLs are unassigned; on the
concrete catalog with years 2021 and 2022 each holding Papers 1 and 2 and an
empty assigned set, it returns the (2022, Paper 1) group. -/
theorem C2_eceswa_group_selection (cache : Cache) (subject grade : String)
    (assigned : UrlSet) (groups : List (EceswaKey × List PastPaperMetadata))
    (hg : groups = eceswaSortedGroups (cacheGet cache subject grade)) :
    (∀ g ∈ groups, ∀ p ∈ g.2, eceswaKey p = g.1) ∧
    ((groups.map Prod.snd).flatten).Perm
      ((cacheGet cache subject grade).map rebuiltPaper) ∧
    groups.Pairwise (fun g1 g2 => g2.1.year < g1.1.year ∨
      (g1.1.year = g2.1.year ∧ g1.1.num.getD 0 ≤ g2.1.num.getD 0)) ∧
    ((getNextEceswaUnassignedPaper cache subject grade assigned =
          ([], assigned) ∧
        ∀ g ∈ groups.map Prod.snd, ∃ p ∈ g, memS assigned p.url = true) ∨
      (∃ pre g post, groups.map Prod.snd = pre ++ g :: post ∧
        (∀ h ∈ pre, ∃ p ∈ h, memS assigned p.url = true) ∧
        (∀ p ∈ g, memS assigned p.url = false) ∧
        getNextEceswaUnassignedPaper cache subject grade assigned =
          (g, addAllS assigned (g.map (fun p => p.url))))) ∧
    (getNextEceswaUnassignedPaper cacheC2 "Mathematics" "JC" []).1 =
      [{ grade := "JC", subject := "Mathematics", year := 2022,
         url := "https://papers.com/eceswa/jc/Mathematics Paper 1 2022.pdf",
         session := "Oct-Nov", paper := "Paper 1" }] := by
  subst hg
  refine ⟨?_, ?_, ?_, ?_, by decide⟩
  · intro g hgmem p hp
    have hmem := (eceswaSortedGroups_perm (cacheGet cache subject grade)).subset
      hgmem
    exact groupFold_key_eq eceswaKey _ g hmem p hp
  · have hperm := eceswaSortedGroups_perm (cacheGet cache subject grade)
    have h1 := (hperm.map Prod.snd).flatten
    exact h1.trans (groupFold_flatten_perm eceswaKey _)
  · have hsorted := stableSort_sorted eceswaSortLe eceswaSortLe_total
      eceswaSortLe_trans (eceswaGroups (cacheGet cache subject grade)).enum
    refine List.Pairwise.map Prod.snd ?_ hsorted
    intro a b hab
    simp only [eceswaSortLe] at hab
    split_ifs at hab <;> simp only [decide_eq_true_eq] at hab <;> omega
  · have h := pickFirstUnassigned_spec
      ((eceswaSortedGroups (cacheGet cache subject grade)).map Prod.snd)
      assigned
    simpa [getNextEceswaUnassignedPaper] using h

/-- Witness for C2: the concrete-instance clause, obtained by applying the
theorem at the concrete catalog. -/
theorem C2_eceswa_group_selection_witness :
    (getNextEceswaUnassignedPaper cacheC2 "Mathematics" "JC" []).1 =
      [{ grade := "JC", subject := "Mathematics", year := 2022,
         url := "https://papers.com/eceswa/jc/Mathematics Paper 1 2022.pdf",
         session := "Oct-Nov", paper := "Paper 1" }] :=
  (C2_eceswa_group_selection cacheC2 "Mathematics" "JC" [] _ rfl).2.2.2.2

theorem pickFirstUnassigned_empty_state (groups : List (List PastPaperMetadata))
    (assigned : UrlSet)
    (h : (pickFirstUnassigned groups assigned).1 = []) :
    (pickFirstUnassigned groups assigned).2 = assigned := by
  rcases pickFirstUnassigned_spec groups assigned with ⟨heq, _⟩ |
    ⟨pre, g, post, _, _, _, heq⟩
  · rw [heq]
  · rw [heq] at h ⊢
    have hg : g = [] := h
    subst hg
    rfl

theorem pickFirstUnassigned_mono (groups : List (List PastPaperMetadata))
    (assigned : UrlSet) (u : String) (hu : memS assigned u = true) :
    memS (pickFirstUnassigned groups assigned).2 u = true := by
  rcases pickFirstUnassigned_spec groups assigned with ⟨heq, _⟩ |
    ⟨pre, g, post, _, _, _, heq⟩
  · rw [heq]; exact hu
  · rw [heq]
    exact (memS_addAllS assigned _ u).mpr (Or.inl hu)

theorem mem_cacheGet_gradeUrls (cache : Cache) (subject grade : String)
    (p : PastPaperMetadata) (hp : p ∈ cacheGet cache subject grade) :
    p.url ∈ gradeUrls cache grade := by
  unfold cacheGet at hp
  cases hfind : (cacheSubject cache subject).find? (fun gp => gp.1 == grade)
    with
  | none => rw [hfind] at hp; simp at hp
  | some gp =>
    rw [hfind] at hp
    simp only [Option.map_some', Option.getD_some] at hp
    have hgpmem : gp ∈ cacheSubject cache subject :=
      List.mem_of_find?_eq_some hfind
    have hgpkey := List.find?_some hfind
    unfold cacheSubject at hgpmem
    cases hfind2 : cache.find? (fun sg => sg.1 == subject) with
    | none => rw [hfind2] at hgpmem; simp at hgpmem
    | some sg =>
      rw [hfind2] at hgpmem
      simp only [Option.map_some', Option.getD_some] at hgpmem
      have hsgmem : sg ∈ cache := List.mem_of_find?_eq_some hfind2
      unfold gradeUrls
      rw [List.mem_flatMap]
      refine ⟨sg, hsgmem, ?_⟩
      rw [List.mem_flatMap]
      refine ⟨gp, List.mem_filter.mpr ⟨hgpmem, hgpkey⟩, ?_⟩
      exact List.mem_map.mpr ⟨p, hp, rfl⟩

/-- Every member of every ECESWA sorted group is a rebuilt paper of the
subject/grade pool, with the same URL. -/
theorem eceswaSortedGroups_member (cache : Cache) (subject grade : String)
    (g : EceswaKey × List PastPaperMetadata)
    (hg : g ∈ eceswaSortedGroups (cacheGet cache subject grade))
    (p : PastPaperMetadata) (hp : p ∈ g.2) :
    ∃ q ∈ cacheGet cache subject grade, p = rebuiltPaper q := by
  have hmem : g ∈ eceswaGroups (cacheGet cache subject grade) :=
    (eceswaSortedGroups_perm _).subset hg
  have hflat : p ∈ ((eceswaGroups (cacheGet cache subject grade)).map
      Prod.snd).flatten := by
    rw [List.mem_flatten]
    exact ⟨g.2, List.mem_map.mpr ⟨g, hmem, rfl⟩, hp⟩
  have := (groupFold_flatten_perm eceswaKey _).subset hflat
  rw [List.mem_map] at this
  obtain ⟨q, hq, rfl⟩ := this
  exact ⟨q, hq, rfl⟩

/-- C3: for every subject and ECESWA grade with a non-empty pool, when the
plain selector returns the empty list and every URL of the subject/grade
pool is assigned, `_get_next_eceswa_with_reset` removes all URLs of that
grade from the assigned set and retries exactly once, and the retried call
returns a non-empty group; the Cambridge selector never removes a URL from
the assigned set. -/
theorem C3_eceswa_reset (cache : Cache) (subject grade : String)
    (assigned : UrlSet)
    (hpool : cacheGet cache subject grade ≠ [])
    (hempty : (getNextEceswaUnassignedPaper cache subject grade assigned).1
      = [])
    (hexhausted : ∀ p ∈ subjectGradePapers cache subject grade,
      memS assigned p.url = true) :
    (getNextEceswaWithReset cache subject grade assigned).2.2 = 1 ∧
    (getNextEceswaWithReset cache subject grade assigned).1 =
      (getNextEceswaUnassignedPaper cache subject grade
        (diffS assigned (gradeUrls cache grade))).1 ∧
    (getNextEceswaWithReset cache subject grade assigned).2.1 =
      (getNextEceswaUnassignedPaper cache subject grade
        (diffS assigned (gradeUrls cache grade))).2 ∧
    (getNextEceswaWithReset cache subject grade assigned).1 ≠ [] ∧
    (∀ cache2 subject2 assigned2 u, memS assigned2 u = true →
      memS (getNextCambridgeIgcseUnassignedPaper cache2 subject2 assigned2).2
        u = true) := by
  have hstate : (getNextEceswaUnassignedPaper cache subject grade assigned).2
      = assigned :=
    pickFirstUnassigned_empty_state _ assigned hempty
  have hcheck : ((subjectGradePapers cache subject grade).map
      (fun p => p.url)).all (fun u =>
        memS (getNextEceswaUnassignedPaper cache subject grade assigned).2 u)
      = true := by
    rw [List.all_eq_true]
    intro u hu
    rw [List.mem_map] at hu
    obtain ⟨p, hp, rfl⟩ := hu
    rw [hstate]
    exact hexhausted p hp
  have hunfold : getNextEceswaWithReset cache subject grade assigned =
      ((getNextEceswaUnassignedPaper cache subject grade
          (diffS assigned (gradeUrls cache grade))).1,
        (getNextEceswaUnassignedPaper cache subject grade
          (diffS assigned (gradeUrls cache grade))).2, 1) := by
    unfold getNextEceswaWithReset
    rw [if_pos (by rw [List.isEmpty_iff]; exact hempty), if_pos hcheck,
      hstate]
  refine ⟨by rw [hunfold], by rw [hunfold], by rw [hunfold], ?_, ?_⟩
  · rw [hunfold]
    simp only [ne_eq]
    obtain ⟨g0, rest, hsplit⟩ := List.exists_cons_of_ne_nil
      (show (eceswaSortedGroups (cacheGet cache subject grade)).map Prod.snd
          ≠ [] by
        intro hnil
        rw [List.map_eq_nil_iff] at hnil
        have hlen := (eceswaSortedGroups_perm
          (cacheGet cache subject grade)).length_eq
        rw [hnil] at hlen
        have hne := groupFold_ne_nil eceswaKey
          ((cacheGet cache subject grade).map rebuiltPaper)
          (by simpa using hpool)
        rw [← List.length_pos_iff_ne_nil] at hne
        unfold eceswaGroups at hlen
        rw [List.length_nil] at hlen
        omega)
    have hg0mem : g0 ∈ (eceswaSortedGroups (cacheGet cache subject grade)).map
        Prod.snd := by rw [hsplit]; simp
    rw [List.mem_map] at hg0mem
    obtain ⟨gp, hgpmem, hgp⟩ := hg0mem
    have hfree : ∀ p ∈ g0, memS (diffS assigned (gradeUrls cache grade)) p.url
        = false := by
      intro p hp
      obtain ⟨q, hq, rfl⟩ := eceswaSortedGroups_member cache subject grade gp
        hgpmem p (by rw [hgp]; exact hp)
      have hin : (rebuiltPaper q).url ∈ gradeUrls cache grade :=
        mem_cacheGet_gradeUrls cache subject grade q hq
      rw [← Bool.not_eq_true]
      intro hmem
      exact ((memS_diffS assigned (gradeUrls cache grade) _).mp hmem).2 hin
    have := pickFirstUnassigned_of_all_free _
      (diffS assigned (gradeUrls cache grade)) g0 rest hsplit hfree
    unfold getNextEceswaUnassignedPaper
    rw [this]
    simp only
    have hne0 : g0 ≠ [] := by
      rw [← hgp]
      exact groupFold_nonempty eceswaKey _ gp
        ((eceswaSortedGroups_perm _).subset hgpmem)
    exact hne0
  · intro cache2 subject2 assigned2 u hu
    exact pickFirstUnassigned_mono _ assigned2 u hu

/-- Witness for C3: on the concrete exhausted pool the reset fires once and
the retried selection is non-empty. -/
theorem C3_eceswa_reset_witness :
    (cacheGet cacheC2 "Mathematics" "JC" ≠ [] ∧
      (getNextEceswaUnassignedPaper cacheC2 "Mathematics" "JC" assignedC3).1
        = [] ∧
      (∀ p ∈ subjectGradePapers cacheC2 "Mathematics" "JC",
        memS assignedC3 p.url = true)) ∧
    (getNextEceswaWithReset cacheC2 "Mathematics" "JC" assignedC3).2.2 = 1 ∧
    (getNextEceswaWithReset cacheC2 "Mathematics" "JC" assignedC3).1 ≠ [] :=
  ⟨⟨by decide, by decide, by decide⟩,
    (C3_eceswa_reset cacheC2 "Mathematics" "JC" assignedC3 (by decide)
      (by decide) (by decide)).1,
    (C3_eceswa_reset cacheC2 "Mathematics" "JC" assignedC3 (by decide)
      (by decide) (by decide)).2.2.2.1⟩

/-- C8 (counterexample): the claim that `write_exam_schedule_record` rejects
a record whose full persisted field-set duplicates an existing row — by
returning a failure value and not appending — is false: on a state already
holding the identical row it still returns `True` and appends the duplicate. -/
theorem C8_duplicate_not_rejected_counterexample :
    ¬ (∀ (rows : List CsvScheduleRow) (r : ScheduledPastPaperMetadata),
        csvFields r ∈ rows →
          (write_exam_schedule_record rows r).1 = false ∧
          (write_exam_schedule_record rows r).2 = rows) := by
  intro h
  have hc := h [csvFields rowC8] rowC8 (List.mem_singleton.mpr rfl)
  simp [write_exam_schedule_record] at hc

/-- C8 (amended): `write_exam_schedule_record` performs no duplicate check at
all: it unconditionally appends the projected row (the seven `fieldnames`
columns, dropping `paper`) and returns `True`, so writing the same record
twice leaves two copies on disk. -/
theorem C8_writer_appends_unconditionally (rows : List CsvScheduleRow)
    (r : ScheduledPastPaperMetadata) :
    (write_exam_schedule_record rows r).1 = true ∧
    (write_exam_schedule_record rows r).2 = rows ++ [csvFields r] ∧
    (write_exam_schedule_record
        ((write_exam_schedule_record rows r).2) r).2.count (csvFields r) =
      rows.count (csvFields r) + 2 := by
  refine ⟨rfl, rfl, ?_⟩
  simp [write_exam_schedule_record, List.count_append]

/-- Witness for C8 (amended): the writer accepts and duplicates `rowC8`. -/
theorem C8_writer_appends_unconditionally_witness :
    (write_exam_schedule_record [csvFields rowC8] rowC8).1 = true ∧
    (write_exam_schedule_record [csvFields rowC8] rowC8).2 =
      [csvFields rowC8] ++ [csvFields rowC8] ∧
    (write_exam_schedule_record
        ((write_exam_schedule_record [csvFields rowC8] rowC8).2)
        rowC8).2.count (csvFields rowC8) =
      ([csvFields rowC8].count (csvFields rowC8)) + 2 :=
  C8_writer_appends_unconditionally [csvFields rowC8] rowC8

/-- C10: a persisted row whose `url` is empty (the placeholder rows) is
invisible to the scheduler's record view: `_get_scheduled_records` keeps only
rows with a non-empty `url`, a day backed only by placeholders contributes
nothing to the assigned-day set, and `get_scheduled_records_by_day` returns
no record for such a day. -/
theorem C10_placeholders_excluded (records : List ScheduledPastPaperMetadata)
    (day : String) :
    (∀ r ∈ scheduledRecords records, r.url ≠ "") ∧
    (day ∈ (scheduledRecords records).map (fun r => r.date) ↔
      ∃ r ∈ records, r.date = day ∧ r.url ≠ "") ∧
    (get_scheduled_records_by_day records day = [] ↔
      ¬ ∃ r ∈ records, r.date = day ∧ r.url ≠ "") := by
  have hperm := stableSort_perm recDateLe
    (records.filter (fun r => r.url ≠ ""))
  refine ⟨?_, ?_, ?_⟩
  · intro r hr
    have := hperm.subset hr
    rw [List.mem_filter] at this
    simpa using this.2
  · constructor
    · intro hd
      rw [List.mem_map] at hd
      obtain ⟨r, hr, rfl⟩ := hd
      have := hperm.subset hr
      rw [List.mem_filter] at this
      exact ⟨r, this.1, rfl, by simpa using this.2⟩
    · rintro ⟨r, hr, rfl, hurl⟩
      rw [List.mem_map]
      refine ⟨r, ?_, rfl⟩
      exact hperm.mem_iff.mpr (List.mem_filter.mpr ⟨hr, by simpa using hurl⟩)
  · unfold get_scheduled_records_by_day
    rw [List.filter_eq_nil_iff]
    constructor
    · rintro hnone ⟨r, hr, rfl, hurl⟩
      exact hnone r (hperm.mem_iff.mpr
        (List.mem_filter.mpr ⟨hr, by simpa using hurl⟩)) (by simp)
    · intro hno r hr hday
      have := hperm.subset hr
      rw [List.mem_filter] at this
      exact hno ⟨r, this.1, by simpa using hday, by simpa using this.2⟩

/-- Witness for C10: instantiated on a two-row store holding one placeholder
and one real row. -/
theorem C10_placeholders_excluded_witness :
    (∀ r ∈ scheduledRecords [rowC8,
        { student_id := 1, date := "04-03-25", grade := "", subject := "",
          year := 0, session := "", url := "", paper := "" }], r.url ≠ "") ∧
    (("04-03-25" ∈ (scheduledRecords [rowC8,
        { student_id := 1, date := "04-03-25", grade := "", subject := "",
          year := 0, session := "", url := "", paper := "" }]).map
          (fun r => r.date)) ↔
      ∃ r ∈ [rowC8,
        { student_id := 1, date := "04-03-25", grade := "", subject := "",
          year := 0, session := "", url := "", paper := "" }],
        r.date = "04-03-25" ∧ r.url ≠ "") :=
  ⟨(C10_placeholders_excluded _ "04-03-25").1,
    (C10_placeholders_excluded _ "04-03-25").2.1⟩

/-! ### Calendar arithmetic -/

theorem isLeap_iff (y : Nat) :
    isLeap y = true ↔ (y % 4 = 0 ∧ (y % 100 ≠ 0 ∨ y % 400 = 0)) := by
  simp [isLeap, Bool.and_eq_true, Bool.or_eq_true, beq_iff_eq, bne_iff_ne]

theorem daysInMonth_pos (y m : Nat) (h1 : 1 ≤ m) (h2 : m ≤ 12) :
    1 ≤ daysInMonth y m := by
  unfold daysInMonth
  split_ifs
  · omega
  · interval_cases m <;> simp [monthDays31]

theorem daysBeforeMonth_succ (y m : Nat) (h1 : 1 ≤ m) (h2 : m ≤ 11) :
    daysBeforeMonth y (m + 1) = daysBeforeMonth y m + daysInMonth y m := by
  interval_cases m <;>
    cases hL : isLeap y <;>
      simp [daysBeforeMonth, daysBeforeMonthTab, daysInMonth, monthDays31,
        hL]

theorem daysBeforeYear_succ_leap (y : Nat) (hy : 1 ≤ y)
    (hl : isLeap y = true) :
    daysBeforeYear (y + 1) = daysBeforeYear y + 366 := by
  rw [isLeap_iff] at hl
  obtain ⟨h4, hrest⟩ := hl
  unfold daysBeforeYear
  rcases hrest with h100 | h400 <;> omega

theorem daysBeforeYear_succ_nonleap (y : Nat) (hy : 1 ≤ y)
    (hl : isLeap y = false) :
    daysBeforeYear (y + 1) = daysBeforeYear y + 365 := by
  have hl' : ¬ (y % 4 = 0 ∧ (y % 100 ≠ 0 ∨ y % 400 = 0)) := by
    rw [← isLeap_iff, hl]
    simp
  push_neg at hl'
  by_cases h4 : y % 4 = 0
  · obtain ⟨h100, h400⟩ := hl' h4
    have e4 : y / 4 = (y - 1) / 4 + 1 := by omega
    have e100 : y / 100 = (y - 1) / 100 + 1 := by omega
    have e400 : y / 400 = (y - 1) / 400 := by omega
    unfold daysBeforeYear
    omega
  · have e4 : y / 4 = (y - 1) / 4 := by omega
    have e100 : y / 100 = (y - 1) / 100 := by omega
    have e400 : y / 400 = (y - 1) / 400 := by omega
    unfold daysBeforeYear
    simp only [Nat.add_sub_cancel]
    rw [e4, e100, e400]
    omega

theorem toOrdinal_nextDate (d : Date) (h : ValidDate d) :
    toOrdinal (nextDate d) = toOrdinal d + 1 := by
  obtain ⟨hy, hm1, hm2, hd1, hd2⟩ := h
  unfold nextDate
  split_ifs with h1 h2
  · simp only [toOrdinal]
    omega
  · have hday : d.day = daysInMonth d.year d.month := by omega
    have hsucc := daysBeforeMonth_succ d.year d.month hm1 (by omega)
    simp only [toOrdinal]
    omega
  · have hm12 : d.month = 12 := by omega
    rw [hm12] at hd2 h1
    have hdim : daysInMonth d.year 12 = 31 := by
      simp [daysInMonth, monthDays31]
    have hday : d.day = 31 := by omega
    have h1' : daysBeforeMonth (d.year + 1) 1 = 0 := by
      simp [daysBeforeMonth, daysBeforeMonthTab]
    simp only [toOrdinal, hm12]
    by_cases hl : isLeap d.year = true
    · have hy_succ := daysBeforeYear_succ_leap d.year hy hl
      have h12 : daysBeforeMonth d.year 12 = 335 := by
        simp [daysBeforeMonth, daysBeforeMonthTab, hl]
      omega
    · rw [Bool.not_eq_true] at hl
      have hy_succ := daysBeforeYear_succ_nonleap d.year hy hl
      have h12 : daysBeforeMonth d.year 12 = 334 := by
        simp [daysBeforeMonth, daysBeforeMonthTab, hl]
      omega

theorem nextDate_valid (d : Date) (h : ValidDate d) : ValidDate (nextDate d) := by
  obtain ⟨hy, hm1, hm2, hd1, hd2⟩ := h
  unfold nextDate
  split_ifs with h1 h2
  · exact ⟨hy, hm1, hm2, by show 1 ≤ d.day + 1; omega, by
      show d.day + 1 ≤ daysInMonth d.year d.month
      omega⟩
  · exact ⟨hy, by show 1 ≤ d.month + 1; omega, by
      show d.month + 1 ≤ 12; omega, by show (1 : Nat) ≤ 1; omega, by
      show 1 ≤ daysInMonth d.year (d.month + 1)
      exact daysInMonth_pos d.year (d.month + 1) (by omega) (by omega)⟩
  · exact ⟨by show 1 ≤ d.year + 1; omega, by show (1 : Nat) ≤ 1; omega, by
      show (1 : Nat) ≤ 12; omega, by show (1 : Nat) ≤ 1; omega, by
      show 1 ≤ daysInMonth (d.year + 1) 1
      exact daysInMonth_pos (d.year + 1) 1 (by omega) (by omega)⟩

/-! ### The day walk -/

theorem dayListAux_spec (last : Date) (fuel : Nat) :
    ∀ cur : Date, ValidDate cur →
      toOrdinal last + 1 - toOrdinal cur ≤ fuel →
      (dayListAux last fuel cur).map toOrdinal =
        List.range' (toOrdinal cur) (toOrdinal last + 1 - toOrdinal cur) ∧
      ∀ d ∈ dayListAux last fuel cur, ValidDate d := by
  induction fuel with
  | zero =>
    intro cur hv hfuel
    have h0 : toOrdinal last + 1 - toOrdinal cur = 0 := by omega
    rw [h0]
    simp [dayListAux]
  | succ fuel ih =>
    intro cur hv hfuel
    by_cases hle : toOrdinal cur ≤ toOrdinal last
    · have hnext := toOrdinal_nextDate cur hv
      have hvn := nextDate_valid cur hv
      obtain ⟨ih1, ih2⟩ := ih (nextDate cur) hvn (by omega)
      constructor
      · simp only [dayListAux, if_pos hle, List.map_cons, ih1, hnext]
        have hcount : toOrdinal last + 1 - toOrdinal cur =
            (toOrdinal last + 1 - (toOrdinal cur + 1)) + 1 := by omega
        rw [hcount, List.range'_succ]
      · intro d hd
        simp only [dayListAux, if_pos hle, List.mem_cons] at hd
        rcases hd with rfl | hd
        · exact hv
        · exact ih2 d hd
    · have h0 : toOrdinal last + 1 - toOrdinal cur = 0 := by omega
      rw [h0]
      simp [dayListAux, hle]

theorem dayList_ordinals (s e : Date) (hs : ValidDate s) :
    (dayList s e).map toOrdinal =
      List.range' (toOrdinal s) (toOrdinal e + 1 - toOrdinal s) :=
  (dayListAux_spec e _ s hs (le_refl _)).1

theorem dayList_valid (s e : Date) (hs : ValidDate s) :
    ∀ d ∈ dayList s e, ValidDate d :=
  (dayListAux_spec e _ s hs (le_refl _)).2

theorem dayList_nodup (s e : Date) (hs : ValidDate s) : (dayList s e).Nodup := by
  refine List.Nodup.of_map toOrdinal ?_
  rw [dayList_ordinals s e hs]
  exact List.nodup_range' _ _

theorem ymLeP_trans (a b c : Nat × Nat) (h1 : ymLeP a b) (h2 : ymLeP b c) :
    ymLeP a c := by
  unfold ymLeP at *
  omega

theorem nextDate_ym (d : Date) :
    ymLeP (ymKey d) (ymKey (nextDate d)) := by
  unfold nextDate
  split_ifs <;> simp [ymKey, ymLeP]

theorem dayListAux_ym_lower (last : Date) (fuel : Nat) :
    ∀ cur, ∀ x ∈ dayListAux last fuel cur, ymLeP (ymKey cur) (ymKey x) := by
  induction fuel with
  | zero => intro cur x hx; simp [dayListAux] at hx
  | succ fuel ih =>
    intro cur x hx
    unfold dayListAux at hx
    split_ifs at hx with hle
    · rw [List.mem_cons] at hx
      rcases hx with rfl | hx
      · exact Or.inr ⟨rfl, le_refl _⟩
      · exact ymLeP_trans _ _ _ (nextDate_ym cur) (ih (nextDate cur) x hx)
    · simp at hx

theorem dayListAux_ym_pairwise (last : Date) (fuel : Nat) :
    ∀ cur, (dayListAux last fuel cur).Pairwise
      (fun d1 d2 => ymLeP (ymKey d1) (ymKey d2)) := by
  induction fuel with
  | zero => intro cur; simp [dayListAux]
  | succ fuel ih =>
    intro cur
    unfold dayListAux
    split_ifs with hle
    · rw [List.pairwise_cons]
      refine ⟨?_, ih (nextDate cur)⟩
      intro x hx
      exact ymLeP_trans _ _ _ (nextDate_ym cur)
        (dayListAux_ym_lower last fuel (nextDate cur) x hx)
    · simp

/-! ### The month-grouping fold -/

theorem insertDayAcc_spec (d : Date) :
    ∀ bs : List MonthAcc,
      bs.Pairwise (fun b1 b2 => ymLtP (b1.year, b1.month) (b2.year, b2.month)) →
      (∀ b ∈ bs, ymLeP (b.year, b.month) (ymKey d)) →
      (∀ b ∈ bs, ∀ x ∈ b.days, x.year = b.year ∧ x.month = b.month) →
      ((insertDayAcc bs d).flatMap (fun b => b.days) =
        bs.flatMap (fun b => b.days) ++ [d]) ∧
      (insertDayAcc bs d).Pairwise
        (fun b1 b2 => ymLtP (b1.year, b1.month) (b2.year, b2.month)) ∧
      (∀ b ∈ insertDayAcc bs d, ymLeP (b.year, b.month) (ymKey d)) ∧
      (∀ b ∈ insertDayAcc bs d, ∀ x ∈ b.days,
        x.year = b.year ∧ x.month = b.month) ∧
      (∀ b ∈ insertDayAcc bs d,
        (b.year, b.month) ∈ bs.map (fun b => (b.year, b.month)) ∨
          (b.year, b.month) = ymKey d) := by
  intro bs
  induction bs with
  | nil =>
    intro _ _ _
    refine ⟨by simp [insertDayAcc], by simp [insertDayAcc], ?_, ?_, ?_⟩
    · intro b hb
      simp only [insertDayAcc, List.mem_singleton] at hb
      subst hb
      exact Or.inr ⟨rfl, le_refl _⟩
    · intro b hb x hx
      simp only [insertDayAcc, List.mem_singleton] at hb
      subst hb
      simp only [List.mem_singleton] at hx
      subst hx
      exact ⟨rfl, rfl⟩
    · intro b hb
      simp only [insertDayAcc, List.mem_singleton] at hb
      subst hb
      exact Or.inr rfl
  | cons b rest ih =>
    intro hsorted hmax hmatch
    rw [List.pairwise_cons] at hsorted
    by_cases hbd : b.year = d.year ∧ b.month = d.month
    · have hrest : rest = [] := by
        cases hrest : rest with
        | nil => rfl
        | cons r rs =>
          exfalso
          have hlt := hsorted.1 r (by rw [hrest]; simp)
          have hle := hmax r (by rw [hrest]; simp)
          unfold ymLtP at hlt
          unfold ymLeP at hle
          unfold ymKey at hle
          omega
      subst hrest
      simp only [insertDayAcc, if_pos hbd]
      refine ⟨by simp, by simp, ?_, ?_, ?_⟩
      · intro b' hb'
        simp only [List.mem_singleton] at hb'
        subst hb'
        exact Or.inr ⟨hbd.1.symm ▸ rfl, by simp [ymKey, hbd.2]⟩
      · intro b' hb' x hx
        simp only [List.mem_singleton] at hb'
        subst hb'
        simp only [List.mem_append, List.mem_singleton] at hx
        rcases hx with hx | hx
        · exact hmatch b (by simp) x hx
        · subst hx
          exact ⟨hbd.1.symm, hbd.2.symm⟩
      · intro b' hb'
        simp only [List.mem_singleton] at hb'
        subst hb'
        simp
    · obtain ⟨ihflat, ihsort, ihle, ihmatch, ihkeys⟩ := ih
        (hsorted.2)
        (fun r hr => hmax r (by simp [hr]))
        (fun r hr => hmatch r (by simp [hr]))
      simp only [insertDayAcc, if_neg hbd]
      refine ⟨?_, ?_, ?_, ?_, ?_⟩
      · simp only [List.flatMap_cons, ihflat, List.append_assoc]
      · rw [List.pairwise_cons]
        refine ⟨?_, ihsort⟩
        intro b' hb'
        rcases ihkeys b' hb' with hk | hk
        · rw [List.mem_map] at hk
          obtain ⟨r, hr, hkr⟩ := hk
          have hlt := hsorted.1 r hr
          rw [Prod.ext_iff] at hkr
          simp only at hkr
          unfold ymLtP at hlt ⊢
          omega
        · have hle := hmax b (by simp)
          unfold ymLeP ymKey at hle
          unfold ymLtP
          unfold ymKey at hk
          have hbd' : ¬ (b.year = d.year ∧ b.month = d.month) := hbd
          rw [Prod.ext_iff] at hk
          simp only at hk
          omega
      · intro b' hb'
        rw [List.mem_cons] at hb'
        rcases hb' with rfl | hb'
        · exact hmax b' (by simp)
        · exact ihle b' hb'
      · intro b' hb' x hx
        rw [List.mem_cons] at hb'
        rcases hb' with rfl | hb'
        · exact hmatch b' (by simp) x hx
        · exact ihmatch b' hb' x hx
      · intro b' hb'
        rw [List.mem_cons] at hb'
        rcases hb' with rfl | hb'
        · exact Or.inl (by simp)
        · rcases ihkeys b' hb' with hk | hk
          · exact Or.inl (by simp [hk])
          · exact Or.inr hk

theorem monthFold_spec (L : List Date)
    (hsort : L.Pairwise (fun d1 d2 => ymLeP (ymKey d1) (ymKey d2))) :
    ∀ bs : List MonthAcc,
      bs.Pairwise (fun b1 b2 => ymLtP (b1.year, b1.month) (b2.year, b2.month)) →
      (∀ x ∈ L, ∀ b ∈ bs, ymLeP (b.year, b.month) (ymKey x)) →
      (∀ b ∈ bs, ∀ x ∈ b.days, x.year = b.year ∧ x.month = b.month) →
      ((L.foldl insertDayAcc bs).flatMap (fun b => b.days) =
        bs.flatMap (fun b => b.days) ++ L) ∧
      (L.foldl insertDayAcc bs).Pairwise
        (fun b1 b2 => ymLtP (b1.year, b1.month) (b2.year, b2.month)) ∧
      (∀ b ∈ L.foldl insertDayAcc bs, ∀ x ∈ b.days,
        x.year = b.year ∧ x.month = b.month) := by
  induction L with
  | nil =>
    intro bs hb _ hm
    simpa using ⟨hb, hm⟩
  | cons d rest ih =>
    intro bs hbsort hub hbmatch
    rw [List.pairwise_cons] at hsort
    obtain ⟨iflat, isort, ile, imatch, ikeys⟩ := insertDayAcc_spec d bs hbsort
      (fun b hb => hub d (by simp) b hb) hbmatch
    have hub' : ∀ x ∈ rest, ∀ b ∈ insertDayAcc bs d,
        ymLeP (b.year, b.month) (ymKey x) := by
      intro x hx b hb
      rcases ikeys b hb with hk | hk
      · rw [List.mem_map] at hk
        obtain ⟨r, hr, hkr⟩ := hk
        have h1 := hub x (by simp [hx]) r hr
        rw [show (b.year, b.month) = (r.year, r.month) from hkr.symm]
        exact h1
      · rw [show ((b.year, b.month) : Nat × Nat) = ymKey d from hk]
        exact hsort.1 x hx
    obtain ⟨ih1, ih2, ih3⟩ := (ih hsort.2) (insertDayAcc bs d) isort hub' imatch
    refine ⟨?_, ih2, ih3⟩
    simp only [List.foldl_cons] at *
    rw [ih1, iflat]
    simp

theorem formatDay_length (d : Date) : (formatDay d).length = 8 := rfl

theorem weekdayName_mem (d : Date) : weekdayName d ∈ weekdayNames := by
  unfold weekdayName
  set k := (toOrdinal d + 6) % 7 with hk
  have h : k < 7 := Nat.mod_lt _ (by norm_num)
  interval_cases k <;> simp [weekdayNames]

/-- `strftime('%B')` is injective on the twelve months, so the Python dict
key `f"{year}-{month_name}"` carries the same information as the
`(year, month)` pair used by the embedded grouping. -/
theorem monthName_inj (m1 m2 : Nat) (h1 : 1 ≤ m1) (h2 : m1 ≤ 12)
    (h3 : 1 ≤ m2) (h4 : m2 ≤ 12) (h : monthName m1 = monthName m2) :
    m1 = m2 := by
  interval_cases m1 <;> interval_cases m2 <;> revert h <;> decide

/-- C5: for valid `start ≤ end` dates and any excluded weekday-name set, the
calendar expansion walks exactly the closed ordinal interval, keeps exactly
the days whose weekday name is not excluded, groups them by (year, month) in
chronological order with every fixed-width `dd-mm-yy` token in its month's
block, produces no day twice, matches the brute-force day-by-day count, and
is empty when every weekday name is excluded. -/
theorem C5_calendar_expansion (s e : Date) (excluded : List String)
    (hs : ValidDate s) (hse : toOrdinal s ≤ toOrdinal e) :
    ((dayList s e).map toOrdinal =
      List.range' (toOrdinal s) (toOrdinal e + 1 - toOrdinal s)) ∧
    (∀ d ∈ dayList s e, ValidDate d) ∧
    ((generateMonthlySchedules s e excluded).flatMap (fun b => b.days) =
      ((dayList s e).filter
        (fun d => !excluded.contains (weekdayName d))).map formatDay) ∧
    (monthAccs s e excluded).Pairwise
      (fun b1 b2 => ymLtP (b1.year, b1.month) (b2.year, b2.month)) ∧
    (∀ b ∈ monthAccs s e excluded, ∀ x ∈ b.days,
      x.year = b.year ∧ x.month = b.month) ∧
    ((dayList s e).filter
      (fun d => !excluded.contains (weekdayName d))).Nodup ∧
    ((generateMonthlySchedules s e excluded).flatMap
        (fun b => b.days)).length =
      ((List.range' (toOrdinal s) (toOrdinal e + 1 - toOrdinal s)).filter
        (fun o => !excluded.contains (weekdayNames.getD ((o + 6) % 7) ""))).length ∧
    ((∀ w ∈ weekdayNames, w ∈ excluded) →
      generateMonthlySchedules s e excluded = []) ∧
    (∀ b ∈ generateMonthlySchedules s e excluded, ∀ t ∈ b.days,
      t.length = 8) := by
  have hvd_sort : (validDays s e excluded).Pairwise
      (fun d1 d2 => ymLeP (ymKey d1) (ymKey d2)) :=
    (dayListAux_ym_pairwise e _ s).filter _
  obtain ⟨hflat, hblocksort, hblockmatch⟩ := monthFold_spec
    (validDays s e excluded) hvd_sort [] (by simp) (by simp) (by simp)
  have hgenflat : (generateMonthlySchedules s e excluded).flatMap
      (fun b => b.days) = ((validDays s e excluded).map formatDay) := by
    unfold generateMonthlySchedules
    rw [List.flatMap_map]
    have : ((monthAccs s e excluded).flatMap (fun b => b.days.map formatDay))
        = ((monthAccs s e excluded).flatMap (fun b => b.days)).map
          formatDay := by
      rw [List.map_flatMap]
    rw [this]
    unfold monthAccs
    rw [hflat]
    simp
  refine ⟨dayList_ordinals s e hs, dayList_valid s e hs, hgenflat,
    hblocksort, hblockmatch, ?_, ?_, ?_, ?_⟩
  · exact (dayList_nodup s e hs).filter _
  · rw [hgenflat, List.length_map]
    unfold validDays
    rw [← List.countP_eq_length_filter, ← List.countP_eq_length_filter,
      ← dayList_ordinals s e hs, List.countP_map]
    rfl
  · intro hall
    have hempty : validDays s e excluded = [] := by
      unfold validDays
      rw [List.filter_eq_nil_iff]
      intro d hd
      have hmem : weekdayName d ∈ excluded := hall _ (weekdayName_mem d)
      have hcontains : excluded.contains (weekdayName d) = true := by
        rw [List.contains_iff_exists_mem_beq]
        exact ⟨weekdayName d, hmem, by simp⟩
      simp [hcontains]
      exact hmem
    unfold generateMonthlySchedules monthAccs
    rw [hempty]
    simp
  · intro b hb t ht
    unfold generateMonthlySchedules at hb
    rw [List.mem_map] at hb
    obtain ⟨acc, hacc, rfl⟩ := hb
    simp only [List.mem_map] at ht
    obtain ⟨d, hd, rfl⟩ := ht
    exact formatDay_length d

/-- Witness for C5: instantiated on the spec's end-to-end example
(01-03-25 to 07-03-25 with Saturday and Sunday excluded). -/
theorem C5_calendar_expansion_witness :
    ValidDate ⟨2025, 3, 1⟩ ∧
    toOrdinal ⟨2025, 3, 1⟩ ≤ toOrdinal ⟨2025, 3, 7⟩ ∧
    ((generateMonthlySchedules ⟨2025, 3, 1⟩ ⟨2025, 3, 7⟩
        ["Saturday", "Sunday"]).flatMap (fun b => b.days) =
      ((dayList ⟨2025, 3, 1⟩ ⟨2025, 3, 7⟩).filter
        (fun d => !(["Saturday", "Sunday"].contains (weekdayName d)))).map
          formatDay) :=
  ⟨by decide, by decide,
    (C5_calendar_expansion ⟨2025, 3, 1⟩ ⟨2025, 3, 7⟩ ["Saturday", "Sunday"]
      (by decide) (by decide)).2.2.1⟩

theorem contains_iff_mem (l : List String) (a : String) :
    l.contains a = true ↔ a ∈ l := by
  rw [List.contains_iff_exists_mem_beq]
  constructor
  · rintro ⟨b, hb, hba⟩
    rw [beq_iff_eq] at hba
    exact hba ▸ hb
  · intro h
    exact ⟨a, h, by simp⟩

/-- C6: `has_complete_schedule` returns `False` when the day set carried by
the scheduler's record view is empty, and returns `True` exactly when that
day set is non-empty and a subset of the expected valid-day set of the
calendar expansion. -/
theorem C6_has_complete_schedule (s e : Date) (excluded : List String)
    (records : List ScheduledPastPaperMetadata) :
    (scheduledRecords records = [] →
      has_complete_schedule s e excluded records = false) ∧
    (has_complete_schedule s e excluded records = true ↔
      (scheduledRecords records ≠ [] ∧
        ∀ r ∈ scheduledRecords records,
          r.date ∈ (generateMonthlySchedules s e excluded).flatMap
            (fun b => b.days))) := by
  unfold has_complete_schedule
  by_cases hA : scheduledRecords records = []
  · rw [hA]
    simp
  · have hne : ¬ ((scheduledRecords records).map (fun r => r.date)).isEmpty
        = true := by
      rw [List.isEmpty_iff]
      simp [hA]
    rw [if_neg hne]
    constructor
    · intro h
      exact absurd h hA
    · rw [List.all_eq_true]
      constructor
      · intro h
        refine ⟨hA, ?_⟩
        intro r hr
        have := h r.date (List.mem_map.mpr ⟨r, hr, rfl⟩)
        rw [contains_iff_mem, List.mem_dedup] at this
        exact this
      · rintro ⟨_, h⟩ day hday
        rw [List.mem_map] at hday
        obtain ⟨r, hr, rfl⟩ := hday
        rw [contains_iff_mem, List.mem_dedup]
        exact h r hr

/-- Witness for C6: an empty record store is never a complete schedule. -/
theorem C6_has_complete_schedule_witness :
    has_complete_schedule ⟨2025, 3, 1⟩ ⟨2025, 3, 7⟩ ["Saturday", "Sunday"]
      [] = false :=
  (C6_has_complete_schedule ⟨2025, 3, 1⟩ ⟨2025, 3, 7⟩ ["Saturday", "Sunday"]
    []).1 rfl

/-- C7 (counterexample): it is not true that, for every catalog and initial
assigned-URL state, one run of `get_new_scheduled_papers_for_student` never
repeats a non-empty URL in two rows: with a single one-paper ECESWA subject
and two valid days, the pool reset recycles the same URL on the second day. -/
theorem C7_no_url_twice_counterexample :
    ¬ (∀ (student : Student) (input : ScheduleInputData) (cache : Cache)
        (assigned0 : UrlSet),
        ((((get_new_scheduled_papers_for_student student input cache
              assigned0).1.map (fun r => r.url)).filter
            (fun u => u ≠ "")).Nodup)) := by
  intro h
  have hc := h studentC7 inputC7 cacheC7 []
  revert hc
  decide

/-- C9 (counterexample): a per-day selection attempt does not always consult
the councils starting from the first (primary) council of the prioritized
list: after one successful Cambridge pick, the stored council index has
rotated past Cambridge, and the next attempt consults ECESWA first even
though the primary Cambridge council still has unassigned papers. -/
theorem C9_primary_first_counterexample :
    ¬ (∀ (studentGrade : String) (cache : Cache) (subject : String)
        (councils : List ExamCouncil) (st : SchedState),
        (getPapersForSubject studentGrade cache subject councils st).1 =
          primaryFirstPapers studentGrade cache subject councils
            st.assigned) := by
  intro h
  have hc := h "JC" cacheC9 "Science"
    [ExamCouncil.CAMBRIDGE, ExamCouncil.ECESWA] stateC9
  revert hc
  decide

theorem tripleLe_total (a b : Nat × Nat × Nat) :
    tripleLe a b = true ∨ tripleLe b a = true := by
  unfold tripleLe
  split_ifs <;> simp only [decide_eq_true_eq] <;> omega

theorem tripleLe_trans (a b c : Nat × Nat × Nat)
    (h1 : tripleLe a b = true) (h2 : tripleLe b c = true) :
    tripleLe a c = true := by
  unfold tripleLe at *
  split_ifs at h1 h2 ⊢ <;> simp only [decide_eq_true_eq] at h1 h2 ⊢ <;> omega

theorem scheduleDays_eq_dayBlocks (g : String) (cache : Cache) (sid : Nat)
    (so : List String) (cmap : String → List ExamCouncil) :
    ∀ (days : List String) (idx : Nat) (st : SchedState),
      (scheduleDays g cache sid so cmap days idx st).1 =
        (dayBlocks g cache sid so cmap days idx st).flatten := by
  intro days
  induction days with
  | nil => intro idx st; rfl
  | cons day rest ih =>
    intro idx st
    simp only [scheduleDays, dayBlocks, List.flatten_cons]
    rw [ih]

theorem dayBlocks_length (g : String) (cache : Cache) (sid : Nat)
    (so : List String) (cmap : String → List ExamCouncil) :
    ∀ (days : List String) (idx : Nat) (st : SchedState),
      (dayBlocks g cache sid so cmap days idx st).length = days.length := by
  intro days
  induction days with
  | nil => intro idx st; rfl
  | cons day rest ih =>
    intro idx st
    simp only [dayBlocks, List.length_cons, ih]

theorem rowsFor_ne_nil (sid : Nat) (day subj : String)
    (papers : List PastPaperMetadata) : rowsFor sid day subj papers ≠ [] := by
  unfold rowsFor
  split
  · simp
  case isFalse h =>
    rw [List.isEmpty_iff] at h
    simp [h]

theorem dayBlocks_nonempty (g : String) (cache : Cache) (sid : Nat)
    (so : List String) (cmap : String → List ExamCouncil) :
    ∀ (days : List String) (idx : Nat) (st : SchedState),
      ∀ blk ∈ dayBlocks g cache sid so cmap days idx st, blk ≠ [] := by
  intro days
  induction days with
  | nil => intro idx st blk hblk; simp [dayBlocks] at hblk
  | cons day rest ih =>
    intro idx st blk hblk
    simp only [dayBlocks, List.mem_cons] at hblk
    rcases hblk with rfl | hblk
    · exact rowsFor_ne_nil _ _ _ _
    · exact ih (idx + 1) _ blk hblk

theorem dayBlocks_get (g : String) (cache : Cache) (sid : Nat)
    (so : List String) (cmap : String → List ExamCouncil) :
    ∀ (days : List String) (idx : Nat) (st : SchedState) (k : Nat),
      k < days.length →
      ∃ st' : SchedState,
        (dayBlocks g cache sid so cmap days idx st).getD k [] =
          rowsFor sid (days.getD k "") (so.getD ((idx + k) % so.length) "")
            (getPapersForSubject g cache (so.getD ((idx + k) % so.length) "")
              (cmap (so.getD ((idx + k) % so.length) "")) st').1 := by
  intro days
  induction days with
  | nil => intro idx st k hk; simp at hk
  | cons day rest ih =>
    intro idx st k hk
    cases k with
    | zero =>
      refine ⟨st, ?_⟩
      simp [dayBlocks]
    | succ k =>
      have harith : idx + 1 + k = idx + (k + 1) := by omega
      obtain ⟨st', hst'⟩ := ih (idx + 1)
        (getPapersForSubject g cache (so.getD (idx % so.length) "")
          (cmap (so.getD (idx % so.length) ""))
          st).2 k (by simpa using Nat.lt_of_succ_lt_succ hk)
      rw [harith] at hst'
      exact ⟨st', by simpa [dayBlocks] using hst'⟩

/-- C4: for a student with a non-empty subject list, each subject carrying a
non-empty prioritized council list (with an empty council list the Python
loop raises `ZeroDivisionError` at `council_indices[subject] %
len(councils)` instead of scheduling anything, so the embedding is only
faithful on this slice), the loop visits the valid days in chronological
order; the produced rows are the concatenation of exactly one block per
day; day `k`'s block is produced for the subject at position `k` modulo the
subject count (the index advancing one per day whether or not papers were
found); each block is non-empty, being either the selected group's rows or
the single placeholder row with empty grade, url, session and paper
fields. -/
theorem C4_day_loop (student : Student) (input : ScheduleInputData)
    (cache : Cache) (assigned0 : UrlSet)
    (hsub : subjectsWithCouncils student input ≠ [])
    (hcouncils : ∀ p ∈ subjectsWithCouncils student input, p.2 ≠ []) :
    (allDaysSorted input).Pairwise (fun a b => strTokenLe a b = true) ∧
    (get_new_scheduled_papers_for_student student input cache assigned0).1 =
      (dayBlocks student.grade cache student.id
        ((subjectsWithCouncils student input).map Prod.fst)
        (fun s => councilsFor (subjectsWithCouncils student input) s)
        (allDaysSorted input) 0 (initialState assigned0)).flatten ∧
    (dayBlocks student.grade cache student.id
      ((subjectsWithCouncils student input).map Prod.fst)
      (fun s => councilsFor (subjectsWithCouncils student input) s)
      (allDaysSorted input) 0 (initialState assigned0)).length =
        (allDaysSorted input).length ∧
    (∀ blk ∈ dayBlocks student.grade cache student.id
        ((subjectsWithCouncils student input).map Prod.fst)
        (fun s => councilsFor (subjectsWithCouncils student input) s)
        (allDaysSorted input) 0 (initialState assigned0), blk ≠ []) ∧
    (∀ k, k < (allDaysSorted input).length →
      ∃ st' : SchedState,
        (dayBlocks student.grade cache student.id
          ((subjectsWithCouncils student input).map Prod.fst)
          (fun s => councilsFor (subjectsWithCouncils student input) s)
          (allDaysSorted input) 0 (initialState assigned0)).getD k [] =
        rowsFor student.id ((allDaysSorted input).getD k "")
          (((subjectsWithCouncils student input).map Prod.fst).getD
            (k % ((subjectsWithCouncils student input).map Prod.fst).length)
            "")
          (getPapersForSubject student.grade cache
            (((subjectsWithCouncils student input).map Prod.fst).getD
              (k % ((subjectsWithCouncils student input).map
                Prod.fst).length) "")
            (councilsFor (subjectsWithCouncils student input)
              (((subjectsWithCouncils student input).map Prod.fst).getD
                (k % ((subjectsWithCouncils student input).map
                  Prod.fst).length) ""))
            st').1) ∧
    (∀ day subj, rowsFor student.id day subj [] =
      [placeholderRow student.id day subj]) ∧
    (∀ day subj (papers : List PastPaperMetadata), papers ≠ [] →
      rowsFor student.id day subj papers =
        papers.map (paperRow student.id day)) := by
  refine ⟨?_, ?_, ?_, ?_, ?_, ?_, ?_⟩
  · exact stableSort_sorted strTokenLe
      (fun a b => tripleLe_total (parsedDateKey a) (parsedDateKey b))
      (fun a b c => tripleLe_trans (parsedDateKey a) (parsedDateKey b)
        (parsedDateKey c)) _
  · exact scheduleDays_eq_dayBlocks _ _ _ _ _ _ _ _
  · exact dayBlocks_length _ _ _ _ _ _ _ _
  · exact dayBlocks_nonempty _ _ _ _ _ _ _ _
  · intro k hk
    simpa using dayBlocks_get student.grade cache student.id
      ((subjectsWithCouncils student input).map Prod.fst)
      (fun s => councilsFor (subjectsWithCouncils student input) s)
      (allDaysSorted input) 0 (initialState assigned0) k hk
  · intro day subj
    rfl
  · intro day subj papers hp
    unfold rowsFor
    rw [if_neg (by rw [List.isEmpty_iff]; exact hp)]

/-- Witness for C4: the loop decomposition instantiated on the concrete
one-subject two-day run. -/
theorem C4_day_loop_witness :
    (allDaysSorted inputC7).Pairwise (fun a b => strTokenLe a b = true) ∧
    (get_new_scheduled_papers_for_student studentC7 inputC7 cacheC7 []).1 =
      (dayBlocks studentC7.grade cacheC7 studentC7.id
        ((subjectsWithCouncils studentC7 inputC7).map Prod.fst)
        (fun s => councilsFor (subjectsWithCouncils studentC7 inputC7) s)
        (allDaysSorted inputC7) 0 (initialState [])).flatten :=
  ⟨(C4_day_loop studentC7 inputC7 cacheC7 [] (by decide) (by decide)).1,
    (C4_day_loop studentC7 inputC7 cacheC7 [] (by decide) (by decide)).2.1⟩

theorem consultResets_mono (g : String) (cache : Cache) (subject : String)
    (councils : List ExamCouncil) (start : Nat) (a0 : UrlSet) (j k : Nat)
    (h : j ≤ k) :
    consultResets g cache subject councils start a0 j ≤
      consultResets g cache subject councils start a0 k := by
  induction k with
  | zero =>
    have hj : j = 0 := by omega
    subst hj
    exact le_refl _
  | succ k ih =>
    by_cases hj : j ≤ k
    · have h1 := ih hj
      have h2 : consultResets g cache subject councils start a0 (k + 1) =
          consultResets g cache subject councils start a0 k +
            (selectForCouncil g cache subject
              (councils.getD ((start + k) % councils.length)
                ExamCouncil.ECESWA)
              (consultState g cache subject councils start a0 k)).2.2 := rfl
      omega
    · have hj' : j = k + 1 := by omega
      subst hj'
      exact le_refl _

theorem tryCouncilsAux_char (g : String) (cache : Cache) (subject : String)
    (councils : List ExamCouncil) (start : Nat) (a0 : UrlSet) :
    ∀ (remaining i resets : Nat),
      (tryCouncilsAux g cache subject councils start i remaining
          (consultState g cache subject councils start a0 i) resets =
        ([], consultState g cache subject councils start a0 (i + remaining),
          resets + (consultResets g cache subject councils start a0
              (i + remaining) -
            consultResets g cache subject councils start a0 i), none) ∧
        (∀ j, i ≤ j → j < i + remaining →
          consultPapers g cache subject councils start a0 j = [])) ∨
      (∃ k, i ≤ k ∧ k < i + remaining ∧
        (∀ j, i ≤ j → j < k →
          consultPapers g cache subject councils start a0 j = []) ∧
        consultPapers g cache subject councils start a0 k ≠ [] ∧
        tryCouncilsAux g cache subject councils start i remaining
            (consultState g cache subject councils start a0 i) resets =
          (consultPapers g cache subject councils start a0 k,
            consultState g cache subject councils start a0 (k + 1),
            resets + (consultResets g cache subject councils start a0 (k + 1)
              - consultResets g cache subject councils start a0 i),
            some k)) := by
  intro remaining
  induction remaining with
  | zero =>
    intro i resets
    left
    constructor
    · show ([], consultState g cache subject councils start a0 i, resets,
          (none : Option Nat)) = _
      rw [Nat.add_zero, Nat.sub_self, Nat.add_zero]
    · intro j h1 h2
      omega
  | succ remaining ih =>
    intro i resets
    have hcp : consultPapers g cache subject councils start a0 i =
        (selectForCouncil g cache subject
          (councils.getD ((start + i) % councils.length) ExamCouncil.ECESWA)
          (consultState g cache subject councils start a0 i)).1 := rfl
    have hcs : consultState g cache subject councils start a0 (i + 1) =
        (selectForCouncil g cache subject
          (councils.getD ((start + i) % councils.length) ExamCouncil.ECESWA)
          (consultState g cache subject councils start a0 i)).2.1 := rfl
    have hcr : consultResets g cache subject councils start a0 (i + 1) =
        consultResets g cache subject councils start a0 i +
          (selectForCouncil g cache subject
            (councils.getD ((start + i) % councils.length)
              ExamCouncil.ECESWA)
            (consultState g cache subject councils start a0 i)).2.2 := rfl
    by_cases hempty : (selectForCouncil g cache subject
        (councils.getD ((start + i) % councils.length) ExamCouncil.ECESWA)
        (consultState g cache subject councils start a0 i)).1.isEmpty = true
    · have hstep : tryCouncilsAux g cache subject councils start i
          (remaining + 1)
          (consultState g cache subject councils start a0 i) resets =
          tryCouncilsAux g cache subject councils start (i + 1) remaining
            (consultState g cache subject councils start a0 (i + 1))
            (resets + (consultResets g cache subject councils start a0
                (i + 1) -
              consultResets g cache subject councils start a0 i)) := by
        rw [hcs, hcr]
        simp only [tryCouncilsAux, hempty, if_pos, Nat.add_sub_cancel_left]
      have hcpi : consultPapers g cache subject councils start a0 i = [] := by
        rw [hcp, ← List.isEmpty_iff]
        exact hempty
      rcases ih (i + 1) (resets + (consultResets g cache subject councils
          start a0 (i + 1) -
        consultResets g cache subject councils start a0 i)) with
        ⟨heq, hall⟩ | ⟨k, hk1, hk2, hall, hne, heq⟩
      · left
        constructor
        · rw [hstep, heq]
          have harith : i + 1 + remaining = i + (remaining + 1) := by omega
          rw [harith]
          have hm1 := consultResets_mono g cache subject councils start a0
            i (i + 1) (by omega)
          have hm2 := consultResets_mono g cache subject councils start a0
            (i + 1) (i + (remaining + 1)) (by omega)
          have hrw : resets + (consultResets g cache subject councils start
                a0 (i + 1) -
              consultResets g cache subject councils start a0 i) +
              (consultResets g cache subject councils start a0
                  (i + (remaining + 1)) -
                consultResets g cache subject councils start a0 (i + 1)) =
              resets + (consultResets g cache subject councils start a0
                  (i + (remaining + 1)) -
                consultResets g cache subject councils start a0 i) := by
            omega
          rw [hrw]
        · intro j h1 h2
          by_cases hj : j = i
          · subst hj
            exact hcpi
          · exact hall j (by omega) (by omega)
      · right
        refine ⟨k, by omega, by omega, ?_, hne, ?_⟩
        · intro j h1 h2
          by_cases hj : j = i
          · subst hj
            exact hcpi
          · exact hall j (by omega) (by omega)
        · rw [hstep, heq]
          have hm1 := consultResets_mono g cache subject councils start a0
            i (i + 1) (by omega)
          have hm2 := consultResets_mono g cache subject councils start a0
            (i + 1) (k + 1) (by omega)
          have hrw : resets + (consultResets g cache subject councils start
                a0 (i + 1) -
              consultResets g cache subject councils start a0 i) +
              (consultResets g cache subject councils start a0 (k + 1) -
                consultResets g cache subject councils start a0 (i + 1)) =
              resets + (consultResets g cache subject councils start a0
                  (k + 1) -
                consultResets g cache subject councils start a0 i) := by
            omega
          rw [hrw]
    · right
      refine ⟨i, le_refl _, by omega, by intro j h1 h2; omega, ?_, ?_⟩
      · rw [hcp]
        intro hnil
        exact hempty (by rw [hnil]; rfl)
      · simp only [tryCouncilsAux, hempty, if_neg, Bool.false_eq_true,
          not_false_iff]
        rw [hcp, hcs, hcr]
        have hrw : resets + (consultResets g cache subject councils start a0
              i +
            (selectForCouncil g cache subject
              (councils.getD ((start + i) % councils.length)
                ExamCouncil.ECESWA)
              (consultState g cache subject councils start a0 i)).2.2 -
            consultResets g cache subject councils start a0 i) =
            resets + (selectForCouncil g cache subject
              (councils.getD ((start + i) % councils.length)
                ExamCouncil.ECESWA)
              (consultState g cache subject councils start a0 i)).2.2 := by
          omega
        rw [hrw]

/-- C9 (amended): a per-day selection attempt consults the councils
cyclically starting from the subject's stored council index — which is the
primary council only initially (the index starts at 0 and, after a
successful pick, is advanced to just past the successful council) — and
moves to the next council exactly when the preceding consultation yields no
papers; when the attempt succeeds at cyclic offset `k`, the returned papers
are that consultation's papers and the stored index becomes
`(start + k + 1) mod n`. -/
theorem C9_rotating_council_consultation (g : String) (cache : Cache)
    (subject : String) (councils : List ExamCouncil) (st : SchedState)
    (hne : councils ≠ []) :
    (∀ a : UrlSet, (initialState a).indices subject = 0) ∧
    (((getPapersForSubject g cache subject councils st).1 = [] ∧
        (∀ j, j < councils.length →
          consultPapers g cache subject councils
            (st.indices subject % councils.length) st.assigned j = []) ∧
        (getPapersForSubject g cache subject councils st).2.indices subject =
          (st.indices subject + 1) % councils.length) ∨
      (∃ k, k < councils.length ∧
        (∀ j, j < k →
          consultPapers g cache subject councils
            (st.indices subject % councils.length) st.assigned j = []) ∧
        consultPapers g cache subject councils
          (st.indices subject % councils.length) st.assigned k ≠ [] ∧
        (getPapersForSubject g cache subject councils st).1 =
          consultPapers g cache subject councils
            (st.indices subject % councils.length) st.assigned k ∧
        (getPapersForSubject g cache subject councils st).2.indices subject =
          (st.indices subject % councils.length + k + 1) %
            councils.length)) := by
  refine ⟨fun a => rfl, ?_⟩
  rcases tryCouncilsAux_char g cache subject councils
      (st.indices subject % councils.length) st.assigned councils.length 0
      st.resets with ⟨heq, hall⟩ | ⟨k, hk1, hk2, hall, hnep, heq⟩
  · left
    have hres : getPapersForSubject g cache subject councils st =
        ([], { assigned :=
                 consultState g cache subject councils
                   (st.indices subject % councils.length) st.assigned
                   (0 + councils.length),
               indices := fun s =>
                 if s = subject then
                   (st.indices subject + 1) % councils.length
                 else st.indices s,
               resets :=
                 st.resets +
                   (consultResets g cache subject councils
                       (st.indices subject % councils.length) st.assigned
                       (0 + councils.length) -
                     consultResets g cache subject councils
                       (st.indices subject % councils.length)
                       st.assigned 0) }) := by
      simp only [getPapersForSubject]
      rw [show st.assigned = consultState g cache subject councils
        (st.indices subject % councils.length) st.assigned 0 from rfl, heq]
      rfl
    refine ⟨by rw [hres], fun j hj => hall j (by omega) (by omega), ?_⟩
    rw [hres]
    simp
  · right
    have hres : getPapersForSubject g cache subject councils st =
        (consultPapers g cache subject councils
            (st.indices subject % councils.length) st.assigned k,
          { assigned :=
              consultState g cache subject councils
                (st.indices subject % councils.length) st.assigned (k + 1),
            indices := fun s =>
              if s = subject then
                (st.indices subject % councils.length + k + 1) %
                  councils.length
              else st.indices s,
            resets :=
              st.resets +
                (consultResets g cache subject councils
                    (st.indices subject % councils.length) st.assigned
                    (k + 1) -
                  consultResets g cache subject councils
                    (st.indices subject % councils.length) st.assigned
                    0) }) := by
      simp only [getPapersForSubject]
      rw [show st.assigned = consultState g cache subject councils
        (st.indices subject % councils.length) st.assigned 0 from rfl, heq]
      rfl
    refine ⟨k, by omega, fun j hj => hall j (by omega) hj, hnep,
      by rw [hres], ?_⟩
    rw [hres]
    simp

/-- Witness for C9 (amended): instantiated at the rotated state reached
after one successful Cambridge pick. -/
theorem C9_rotating_council_consultation_witness :
    (∀ a : UrlSet, (initialState a).indices "Science" = 0) ∧
    (((getPapersForSubject "JC" cacheC9 "Science"
          [ExamCouncil.CAMBRIDGE, ExamCouncil.ECESWA] stateC9).1 = [] ∧
        (∀ j, j < ([ExamCouncil.CAMBRIDGE, ExamCouncil.ECESWA] :
            List ExamCouncil).length →
          consultPapers "JC" cacheC9 "Science"
            [ExamCouncil.CAMBRIDGE, ExamCouncil.ECESWA]
            (stateC9.indices "Science" % 2) stateC9.assigned j = []) ∧
        (getPapersForSubject "JC" cacheC9 "Science"
          [ExamCouncil.CAMBRIDGE, ExamCouncil.ECESWA]
            stateC9).2.indices "Science" =
          (stateC9.indices "Science" + 1) % 2) ∨
      (∃ k, k < ([ExamCouncil.CAMBRIDGE, ExamCouncil.ECESWA] :
          List ExamCouncil).length ∧
        (∀ j, j < k →
          consultPapers "JC" cacheC9 "Science"
            [ExamCouncil.CAMBRIDGE, ExamCouncil.ECESWA]
            (stateC9.indices "Science" % 2) stateC9.assigned j = []) ∧
        consultPapers "JC" cacheC9 "Science"
          [ExamCouncil.CAMBRIDGE, ExamCouncil.ECESWA]
          (stateC9.indices "Science" % 2) stateC9.assigned k ≠ [] ∧
        (getPapersForSubject "JC" cacheC9 "Science"
          [ExamCouncil.CAMBRIDGE, ExamCouncil.ECESWA] stateC9).1 =
          consultPapers "JC" cacheC9 "Science"
            [ExamCouncil.CAMBRIDGE, ExamCouncil.ECESWA]
            (stateC9.indices "Science" % 2) stateC9.assigned k ∧
        (getPapersForSubject "JC" cacheC9 "Science"
          [ExamCouncil.CAMBRIDGE, ExamCouncil.ECESWA]
            stateC9).2.indices "Science" =
          (stateC9.indices "Science" % 2 + k + 1) % 2)) :=
  C9_rotating_council_consultation "JC" cacheC9 "Science"
    [ExamCouncil.CAMBRIDGE, ExamCouncil.ECESWA] stateC9 (by decide)

/-! ### URL distinctness through the cache and the groupings -/

theorem sublist_flatMap_of_mem {α β : Type} (f : α → List β) {l : List α}
    {x : α} (hx : x ∈ l) : (f x).Sublist (l.flatMap f) := by
  rw [List.flatMap_def]
  exact List.sublist_flatten_of_mem (List.mem_map.mpr ⟨x, hx, rfl⟩)

theorem cacheGet_urls_sublist (cache : Cache) (subject grade : String) :
    ((cacheGet cache subject grade).map (fun p => p.url)).Sublist
      (allCacheUrls cache) := by
  unfold cacheGet
  cases hfind : (cacheSubject cache subject).find? (fun gp => gp.1 == grade)
    with
  | none => simp
  | some gp =>
    simp only [Option.map_some', Option.getD_some]
    have hgpmem : gp ∈ cacheSubject cache subject :=
      List.mem_of_find?_eq_some hfind
    unfold cacheSubject at hgpmem
    cases hfind2 : cache.find? (fun sg => sg.1 == subject) with
    | none => rw [hfind2] at hgpmem; simp at hgpmem
    | some sg =>
      rw [hfind2] at hgpmem
      simp only [Option.map_some', Option.getD_some] at hgpmem
      have hsgmem : sg ∈ cache := List.mem_of_find?_eq_some hfind2
      have h1 : (gp.2.map (fun p => p.url)).Sublist
          (sg.2.flatMap (fun gp => gp.2.map (fun p => p.url))) :=
        sublist_flatMap_of_mem (fun gp => gp.2.map (fun p => p.url)) hgpmem
      have h2 : (sg.2.flatMap (fun gp => gp.2.map (fun p => p.url))).Sublist
          (allCacheUrls cache) :=
        sublist_flatMap_of_mem
          (fun sg => sg.2.flatMap (fun gp => gp.2.map (fun p => p.url)))
          hsgmem
      exact h1.trans h2

theorem cacheGet_urls_nodup (cache : Cache) (subject grade : String)
    (hnd : (allCacheUrls cache).Nodup) :
    ((cacheGet cache subject grade).map (fun p => p.url)).Nodup :=
  (cacheGet_urls_sublist cache subject grade).nodup hnd

/-- Every group produced by grouping the rebuilt pool keeps pairwise
distinct URLs when the pool's URLs are pairwise distinct. -/
theorem groupFold_member_urls_nodup {κ : Type} [DecidableEq κ]
    (key : PastPaperMetadata → κ) (papers : List PastPaperMetadata)
    (hnd : (papers.map (fun p => p.url)).Nodup) :
    ∀ g ∈ groupFold key (papers.map rebuiltPaper),
      ((g.2.map (fun p => p.url)).Nodup) := by
  intro g hg
  have hperm := (groupFold_flatten_perm key (papers.map rebuiltPaper)).map
    (fun p => p.url)
  have heq : ((papers.map rebuiltPaper).map (fun p => p.url)) =
      papers.map (fun p => p.url) := by
    rw [List.map_map]
    rfl
  rw [heq] at hperm
  have hflatnd : ((((groupFold key (papers.map rebuiltPaper)).map
      Prod.snd).flatten).map (fun p => p.url)).Nodup :=
    (hperm.nodup_iff).mpr hnd
  have hsub : g.2.Sublist (((groupFold key (papers.map rebuiltPaper)).map
      Prod.snd).flatten) :=
    List.sublist_flatten_of_mem (List.mem_map.mpr ⟨g, hg, rfl⟩)
  exact (hsub.map (fun p => p.url)).nodup hflatnd

theorem cambridgeGroups_member_urls_nodup (cache : Cache) (subject : String)
    (hnd : (allCacheUrls cache).Nodup) :
    ∀ g ∈ (cambridgeGroups (cacheGet cache subject "IGCSE")).map Prod.snd,
      ((g.map (fun p => p.url)).Nodup) := by
  intro g hg
  rw [List.mem_map] at hg
  obtain ⟨pair, hpair, rfl⟩ := hg
  exact groupFold_member_urls_nodup cambridgeGroupKey _
    (cacheGet_urls_nodup cache subject "IGCSE" hnd) pair hpair

theorem eceswaSortedGroups_member_urls_nodup (cache : Cache)
    (subject grade : String) (hnd : (allCacheUrls cache).Nodup) :
    ∀ g ∈ (eceswaSortedGroups (cacheGet cache subject grade)).map Prod.snd,
      ((g.map (fun p => p.url)).Nodup) := by
  intro g hg
  rw [List.mem_map] at hg
  obtain ⟨pair, hpair, rfl⟩ := hg
  exact groupFold_member_urls_nodup eceswaKey _
    (cacheGet_urls_nodup cache subject grade hnd) pair
    ((eceswaSortedGroups_perm _).subset hpair)

theorem pickFirst_SelStep (groups : List (List PastPaperMetadata))
    (assigned : UrlSet)
    (hgnodup : ∀ g ∈ groups, ((g.map (fun p => p.url)).Nodup)) :
    SelStep assigned (pickFirstUnassigned groups assigned).2
      (pickFirstUnassigned groups assigned).1 := by
  rcases pickFirstUnassigned_spec groups assigned with ⟨heq, _⟩ |
    ⟨pre, g, post, hsplit, _, hfree, heq⟩
  · rw [heq]
    exact ⟨fun _ => rfl, fun hne => absurd rfl hne⟩
  · rw [heq]
    constructor
    · intro hg
      subst hg
      rfl
    · intro _
      exact ⟨hfree, hgnodup g (by rw [hsplit]; simp), rfl⟩

theorem cambridge_SelStep (cache : Cache) (subject : String)
    (assigned : UrlSet) (hnd : (allCacheUrls cache).Nodup) :
    SelStep assigned (getNextCambridgeIgcseUnassignedPaper cache subject
        assigned).2
      (getNextCambridgeIgcseUnassignedPaper cache subject assigned).1 :=
  pickFirst_SelStep _ assigned
    (cambridgeGroups_member_urls_nodup cache subject hnd)

theorem eceswa_SelStep (cache : Cache) (subject grade : String)
    (assigned : UrlSet) (hnd : (allCacheUrls cache).Nodup) :
    SelStep assigned (getNextEceswaUnassignedPaper cache subject grade
        assigned).2
      (getNextEceswaUnassignedPaper cache subject grade assigned).1 :=
  pickFirst_SelStep _ assigned
    (eceswaSortedGroups_member_urls_nodup cache subject grade hnd)

/-- When the reset branch did not fire, `_get_next_eceswa_with_reset` is the
plain selector. -/
theorem eceswaWithReset_noreset (cache : Cache) (subject grade : String)
    (assigned : UrlSet)
    (h0 : (getNextEceswaWithReset cache subject grade assigned).2.2 = 0) :
    (getNextEceswaWithReset cache subject grade assigned).1 =
      (getNextEceswaUnassignedPaper cache subject grade assigned).1 ∧
    (getNextEceswaWithReset cache subject grade assigned).2.1 =
      (getNextEceswaUnassignedPaper cache subject grade assigned).2 := by
  simp only [getNextEceswaWithReset] at h0 ⊢
  split_ifs at h0 ⊢ <;> exact ⟨rfl, rfl⟩

theorem selectForCouncil_SelStep (g : String) (cache : Cache)
    (subject : String) (c : ExamCouncil) (assigned : UrlSet)
    (hnd : (allCacheUrls cache).Nodup)
    (h0 : (selectForCouncil g cache subject c assigned).2.2 = 0) :
    SelStep assigned (selectForCouncil g cache subject c assigned).2.1
      (selectForCouncil g cache subject c assigned).1 := by
  cases c with
  | CAMBRIDGE => exact cambridge_SelStep cache subject assigned hnd
  | ECESWA =>
    unfold selectForCouncil at h0 ⊢
    split_ifs at h0 ⊢
    · obtain ⟨e1, e2⟩ := eceswaWithReset_noreset cache subject "EGCSE"
        assigned h0
      rw [e1, e2]
      exact eceswa_SelStep cache subject "EGCSE" assigned hnd
    · obtain ⟨e1, e2⟩ := eceswaWithReset_noreset cache subject "JC"
        assigned h0
      rw [e1, e2]
      exact eceswa_SelStep cache subject "JC" assigned hnd

theorem tryCouncilsAux_resets_le (g : String) (cache : Cache)
    (subject : String) (councils : List ExamCouncil) (start : Nat) :
    ∀ (remaining i : Nat) (assigned : UrlSet) (resets : Nat),
      resets ≤ (tryCouncilsAux g cache subject councils start i remaining
        assigned resets).2.2.1 := by
  intro remaining
  induction remaining with
  | zero => intro i assigned resets; exact le_refl _
  | succ remaining ih =>
    intro i assigned resets
    simp only [tryCouncilsAux]
    split
    · exact le_trans (Nat.le_add_right _ _) (ih _ _ _)
    · exact Nat.le_add_right _ _

theorem tryCouncilsAux_none_nil (g : String) (cache : Cache)
    (subject : String) (councils : List ExamCouncil) (start : Nat) :
    ∀ (remaining i : Nat) (assigned : UrlSet) (resets : Nat),
      (tryCouncilsAux g cache subject councils start i remaining assigned
        resets).2.2.2 = none →
      (tryCouncilsAux g cache subject councils start i remaining assigned
        resets).1 = [] := by
  intro remaining
  induction remaining with
  | zero => intro i assigned resets _; rfl
  | succ remaining ih =>
    intro i assigned resets
    simp only [tryCouncilsAux]
    split
    · exact ih _ _ _
    · intro h
      exact Option.noConfusion h

theorem tryCouncilsAux_SelStep (g : String) (cache : Cache)
    (subject : String) (councils : List ExamCouncil) (start : Nat)
    (hnd : (allCacheUrls cache).Nodup) :
    ∀ (remaining i : Nat) (assigned : UrlSet) (resets : Nat),
      (tryCouncilsAux g cache subject councils start i remaining assigned
        resets).2.2.1 = resets →
      SelStep assigned
        (tryCouncilsAux g cache subject councils start i remaining assigned
          resets).2.1
        (tryCouncilsAux g cache subject councils start i remaining assigned
          resets).1 := by
  intro remaining
  induction remaining with
  | zero =>
    intro i assigned resets _
    exact ⟨fun _ => rfl, fun hne => absurd rfl hne⟩
  | succ remaining ih =>
    intro i assigned resets h0
    simp only [tryCouncilsAux] at h0 ⊢
    split_ifs at h0 ⊢ with hc
    · have hmono := tryCouncilsAux_resets_le g cache subject councils start
        remaining (i + 1)
        (selectForCouncil g cache subject
          (councils.getD ((start + i) % councils.length)
            ExamCouncil.ECESWA) assigned).2.1
        (resets + (selectForCouncil g cache subject
          (councils.getD ((start + i) % councils.length)
            ExamCouncil.ECESWA) assigned).2.2)
      have hdelta0 : (selectForCouncil g cache subject
          (councils.getD ((start + i) % councils.length)
            ExamCouncil.ECESWA) assigned).2.2 = 0 := by
        omega
      have hsel := selectForCouncil_SelStep g cache subject
        (councils.getD ((start + i) % councils.length) ExamCouncil.ECESWA)
        assigned hnd hdelta0
      have hselnil : (selectForCouncil g cache subject
          (councils.getD ((start + i) % councils.length)
            ExamCouncil.ECESWA) assigned).1 = [] := List.isEmpty_iff.mp hc
      have hstate := hsel.1 hselnil
      rw [hstate, hdelta0, Nat.add_zero] at h0 ⊢
      exact ih (i + 1) assigned resets h0
    · simp only at h0
      have hdelta0 : (selectForCouncil g cache subject
          (councils.getD ((start + i) % councils.length)
            ExamCouncil.ECESWA) assigned).2.2 = 0 := by
        omega
      exact selectForCouncil_SelStep g cache subject
        (councils.getD ((start + i) % councils.length) ExamCouncil.ECESWA)
        assigned hnd hdelta0

theorem getPapers_resets_le (g : String) (cache : Cache) (subject : String)
    (councils : List ExamCouncil) (st : SchedState) :
    st.resets ≤ (getPapersForSubject g cache subject councils st).2.resets := by
  have hmono := tryCouncilsAux_resets_le g cache subject councils
    (st.indices subject % councils.length) councils.length 0 st.assigned
    st.resets
  simp only [getPapersForSubject]
  split <;> exact hmono

theorem getPapers_SelStep (g : String) (cache : Cache) (subject : String)
    (councils : List ExamCouncil) (st : SchedState)
    (hnd : (allCacheUrls cache).Nodup)
    (h0 : (getPapersForSubject g cache subject councils st).2.resets =
      st.resets) :
    SelStep st.assigned
      (getPapersForSubject g cache subject councils st).2.assigned
      (getPapersForSubject g cache subject councils st).1 := by
  simp only [getPapersForSubject] at h0 ⊢
  cases hflag : (tryCouncilsAux g cache subject councils
      (st.indices subject % councils.length) 0 councils.length st.assigned
      st.resets).2.2.2 with
  | none =>
    simp only [hflag] at h0 ⊢
    have hnil := tryCouncilsAux_none_nil g cache subject councils
      (st.indices subject % councils.length) councils.length 0 st.assigned
      st.resets hflag
    have hsel := tryCouncilsAux_SelStep g cache subject councils
      (st.indices subject % councils.length) hnd councils.length 0
      st.assigned st.resets h0
    have hstate := hsel.1 hnil
    rw [hstate]
    exact ⟨fun _ => rfl, fun hne => absurd rfl hne⟩
  | some i =>
    simp only [hflag] at h0 ⊢
    exact tryCouncilsAux_SelStep g cache subject councils
      (st.indices subject % councils.length) hnd councils.length 0
      st.assigned st.resets h0

theorem rowsFor_urls_empty (sid : Nat) (day subj : String) :
    (rowsFor sid day subj []).map (fun r => r.url) = [""] := rfl

theorem rowsFor_urls_papers (sid : Nat) (day subj : String)
    (papers : List PastPaperMetadata) (h : papers ≠ []) :
    (rowsFor sid day subj papers).map (fun r => r.url) =
      papers.map (fun p => p.url) := by
  unfold rowsFor
  rw [if_neg (by rw [List.isEmpty_iff]; exact h), List.map_map]
  rfl

theorem scheduleDays_resets_le (g : String) (cache : Cache) (sid : Nat)
    (so : List String) (cmap : String → List ExamCouncil) :
    ∀ (days : List String) (idx : Nat) (st : SchedState),
      st.resets ≤ (scheduleDays g cache sid so cmap days idx st).2.resets := by
  intro days
  induction days with
  | nil => intro idx st; exact le_refl _
  | cons day rest ih =>
    intro idx st
    simp only [scheduleDays]
    exact le_trans (getPapers_resets_le g cache _ _ st) (ih (idx + 1) _)

theorem scheduleDays_urls_inv (g : String) (cache : Cache) (sid : Nat)
    (so : List String) (cmap : String → List ExamCouncil)
    (hnd : (allCacheUrls cache).Nodup) :
    ∀ (days : List String) (idx : Nat) (st : SchedState),
      (scheduleDays g cache sid so cmap days idx st).2.resets = st.resets →
      ((((scheduleDays g cache sid so cmap days idx st).1.map
          (fun r => r.url)).filter (fun u => u ≠ "")).Nodup ∧
        (∀ u ∈ ((scheduleDays g cache sid so cmap days idx st).1.map
            (fun r => r.url)).filter (fun u => u ≠ ""),
          memS (scheduleDays g cache sid so cmap days idx st).2.assigned u
            = true) ∧
        (∀ u, memS st.assigned u = true →
          memS (scheduleDays g cache sid so cmap days idx st).2.assigned u
            = true) ∧
        (∀ u ∈ ((scheduleDays g cache sid so cmap days idx st).1.map
            (fun r => r.url)).filter (fun u => u ≠ ""),
          memS st.assigned u = false)) := by
  intro days
  induction days with
  | nil =>
    intro idx st _
    exact ⟨by simp [scheduleDays], by simp [scheduleDays],
      fun u hu => hu, by simp [scheduleDays]⟩
  | cons day rest ih =>
    intro idx st h0
    have hm1 := getPapers_resets_le g cache (so.getD (idx % so.length) "")
      (cmap (so.getD (idx % so.length) "")) st
    have hm2 := scheduleDays_resets_le g cache sid so cmap rest (idx + 1)
      (getPapersForSubject g cache (so.getD (idx % so.length) "")
        (cmap (so.getD (idx % so.length) "")) st).2
    simp only [scheduleDays] at h0 ⊢
    have hreq : (getPapersForSubject g cache (so.getD (idx % so.length) "")
        (cmap (so.getD (idx % so.length) "")) st).2.resets = st.resets := by
      omega
    have hsel := getPapers_SelStep g cache (so.getD (idx % so.length) "")
      (cmap (so.getD (idx % so.length) "")) st hnd hreq
    obtain ⟨ih1, ih2, ih3, ih4⟩ := ih (idx + 1)
      (getPapersForSubject g cache (so.getD (idx % so.length) "")
        (cmap (so.getD (idx % so.length) "")) st).2 (by omega)
    by_cases hp : (getPapersForSubject g cache (so.getD (idx % so.length) "")
        (cmap (so.getD (idx % so.length) "")) st).1 = []
    · have hstate := hsel.1 hp
      rw [hp]
      rw [List.map_append, List.filter_append, rowsFor_urls_empty]
      have hph : (([""] : List String).filter (fun u => u ≠ "")) = [] := by
        decide
      rw [hph, List.nil_append]
      rw [hstate] at ih3 ih4
      exact ⟨ih1, ih2, ih3, ih4⟩
    · obtain ⟨hfresh, hnodupD, hassigned⟩ := hsel.2 hp
      rw [List.map_append, List.filter_append, rowsFor_urls_papers _ _ _ _ hp]
      have hDmem : ∀ u ∈ ((getPapersForSubject g cache
            (so.getD (idx % so.length) "")
            (cmap (so.getD (idx % so.length) "")) st).1.map
              (fun p => p.url)).filter (fun u => u ≠ ""),
          memS (getPapersForSubject g cache (so.getD (idx % so.length) "")
            (cmap (so.getD (idx % so.length) "")) st).2.assigned u
            = true := by
        intro u hu
        rw [List.mem_filter] at hu
        rw [hassigned]
        exact (memS_addAllS _ _ _).mpr (Or.inr hu.1)
      have hDfresh : ∀ u ∈ ((getPapersForSubject g cache
            (so.getD (idx % so.length) "")
            (cmap (so.getD (idx % so.length) "")) st).1.map
              (fun p => p.url)).filter (fun u => u ≠ ""),
          memS st.assigned u = false := by
        intro u hu
        rw [List.mem_filter, List.mem_map] at hu
        obtain ⟨⟨p, hpmem, rfl⟩, _⟩ := hu
        exact hfresh p hpmem
      refine ⟨?_, ?_, ?_, ?_⟩
      · rw [List.nodup_append]
        refine ⟨hnodupD.filter _, ih1, ?_⟩
        intro u hu hu2
        have h1 := hDmem u hu
        have h2 := ih4 u hu2
        rw [h1] at h2
        exact Bool.noConfusion h2
      · intro u hu
        rw [List.mem_append] at hu
        rcases hu with hu | hu
        · exact ih3 u (hDmem u hu)
        · exact ih2 u hu
      · intro u hu
        refine ih3 u ?_
        rw [hassigned]
        exact (memS_addAllS _ _ _).mpr (Or.inl hu)
      · intro u hu
        rw [List.mem_append] at hu
        rcases hu with hu | hu
        · exact hDfresh u hu
        · have h4 := ih4 u hu
          rw [← Bool.not_eq_true]
          intro hmem
          have : memS (getPapersForSubject g cache
              (so.getD (idx % so.length) "")
              (cmap (so.getD (idx % so.length) "")) st).2.assigned u
              = true := by
            rw [hassigned]
            exact (memS_addAllS _ _ _).mpr (Or.inl hmem)
          rw [h4] at this
          exact Bool.noConfusion this

/-- C7 (amended): provided the catalog's URLs are pairwise distinct and no
ECESWA pool reset fires during the run, one run of
`get_new_scheduled_papers_for_student` never assigns the same non-empty URL
to two rows. -/
theorem C7_no_url_twice_without_reset (student : Student)
    (input : ScheduleInputData) (cache : Cache) (assigned0 : UrlSet)
    (hnd : (allCacheUrls cache).Nodup)
    (h0 : (get_new_scheduled_papers_for_student student input cache
      assigned0).2.resets = 0) :
    ((((get_new_scheduled_papers_for_student student input cache
        assigned0).1.map (fun r => r.url)).filter
      (fun u => u ≠ "")).Nodup) := by
  simp only [get_new_scheduled_papers_for_student] at h0 ⊢
  exact (scheduleDays_urls_inv student.grade cache student.id _ _ hnd
    (allDaysSorted input) 0 (initialState assigned0) h0).1

/-- Witness for C7 (amended): a two-day run over the four-paper catalog
fires no reset and indeed repeats no URL. -/
theorem C7_no_url_twice_without_reset_witness :
    (allCacheUrls cacheC2).Nodup ∧
    (get_new_scheduled_papers_for_student studentC7 inputC7 cacheC2
      []).2.resets = 0 ∧
    ((((get_new_scheduled_papers_for_student studentC7 inputC7 cacheC2
        []).1.map (fun r => r.url)).filter (fun u => u ≠ "")).Nodup) :=
  ⟨by decide, by decide,
    C7_no_url_twice_without_reset studentC7 inputC7 cacheC2 [] (by decide)
      (by decide)⟩

end ThinkeTT
